import Mathlib

/-!
# ArrayUtils: a growable array of fixed-size elements

A shallow embedding of `src/ArrayUtils.c` and theorems about it.

Conventions of the embedding.

* A block of memory is a `List Nat` of bytes. `malloc` and the extension made
  by `realloc` hold indeterminate bytes in C; here they hold `0`. A read at an
  offset outside a block yields `0` and a write outside a block is dropped.
  The block of a vector is the memory from `data` on: its first
  `capacity * objsize` bytes are the buffer, and bytes after them, when the
  block has any, are the memory that follows the buffer.
* A pointer into the vector's buffer is the byte offset from `data`.
* Sizes, capacities, indices and byte offsets are natural numbers. What the
  source computes in `unsigned long` (`size`, `capacity` and every product
  with one of them) is not wrapped, except `at + size - 1` in the range
  checks of the matching functions, which is taken modulo `2 ^ 64` (LP64).
  What the source computes in `unsigned int` or `int`, a product of two
  `unsigned int` or of an `int` and an `unsigned int`, is taken modulo
  `2 ^ 32` (`uint_mul`), and an `int` loop counter stays below `2 ^ 31`.
* The error channel is in its initial state (`SIGNAL_USR_ArrayUtils = 0`):
  `handle_err` prints and calls `exit(error_type)`, so an operation that
  reports an error stops there. It is the `Except.error` of the result.
  The definitions whose name ends in `_mode` take the state of the channel
  as an argument; with a handler installed, the handler is one that returns.
* The ranges of bytes that an operation reads and stores are the source and
  destination ranges of its `memcpy` and `memmove` calls.
* Allocation does not fail.
* The process globals `realloc_factor` and `std_capacity` are arguments of
  the operations that read them.
* A `while` loop that grows the capacity takes a bound on the number of
  iterations (`fuel`); `none` means the bound was reached.
-/

namespace ArrayUtils

/-! ## Memory -/

/-- Byte at offset `a` of a block. -/
def byte_at (block : List Nat) (a : Nat) : Nat :=
  block.getD a 0

/-- The `n` bytes of a block from offset `off` on. -/
def mem_read (block : List Nat) (off n : Nat) : List Nat :=
  (List.range n).map (fun k => byte_at block (off + k))

/-- The block with the bytes `src` stored from offset `off` on. -/
def mem_write (block : List Nat) (off : Nat) (src : List Nat) : List Nat :=
  (List.range block.length).map
    (fun a => if off ≤ a ∧ a < off + src.length then byte_at src (a - off) else byte_at block a)

/-- The call `memcpy(dest + doff, src + soff, n)`. -/
def memcpy (dest : List Nat) (doff : Nat) (src : List Nat) (soff n : Nat) : List Nat :=
  mem_write dest doff (mem_read src soff n)

/-- The call `memmove(dest + doff, src + soff, n)`: the source bytes are read before any byte
is stored, so the two ranges may overlap. -/
def memmove (dest : List Nat) (doff : Nat) (src : List Nat) (soff n : Nat) : List Nat :=
  mem_write dest doff (mem_read src soff n)

/-- Comparison of two byte sequences in order: the difference of the first pair of bytes
that differ, `0` when there is none. -/
def memcmp_bytes : List Nat → List Nat → Int
  | a :: as, b :: bs => if a = b then memcmp_bytes as bs else (a : Int) - (b : Int)
  | _, _ => 0

/-- The call `memcmp(p + poff, q + qoff, n)`. -/
def memcmp (p : List Nat) (poff : Nat) (q : List Nat) (qoff n : Nat) : Int :=
  memcmp_bytes (mem_read p poff n) (mem_read q qoff n)

/-- The call `malloc(size)`. -/
def malloc (size : Nat) : List Nat :=
  List.replicate size 0

/-- The function `safe_alloc`. -/
def safe_alloc (size : Nat) : List Nat :=
  malloc size

/-- The call `realloc(ptr, size)`: a block of `size` bytes that starts with the bytes of the
old block. -/
def realloc (ptr : List Nat) (size : Nat) : List Nat :=
  ptr.take size ++ List.replicate (size - ptr.length) 0

/-- The function `safe_realloc`. -/
def safe_realloc (ptr : List Nat) (size : Nat) : List Nat :=
  realloc ptr size

/-! ## The vector -/

/-- The enumeration `ArrayUtilsErrors`, in the order of the header. -/
inductive ArrayUtilsErrors where
  | OutOfBoundsAccessError
  | AllocationError
  | ReallocationError
  | ReplaceMoreThanCurrentSizeError
  | EmptyPopError
  | SignalHandlerError
  deriving DecidableEq, Repr

/-- The structure `struct Vector`. -/
structure Vector where
  data : List Nat
  objsize : Nat
  size : Nat
  capacity : Nat
  deriving DecidableEq, Repr

/-- The number of values of an `unsigned int`. -/
def UINT_RANGE : Nat := 2 ^ 32

/-- The product of two `unsigned int`, or of an `int` that is not negative and an
`unsigned int`: it is taken in `unsigned int`. -/
def uint_mul (a b : Nat) : Nat :=
  (a * b) % UINT_RANGE

/-- Conversion of an `unsigned long` to `int`: the low 32 bits, read as a signed number. -/
def to_int (x : Nat) : Int :=
  if x % UINT_RANGE < 2 ^ 31 then ((x % UINT_RANGE : Nat) : Int)
  else ((x % UINT_RANGE : Nat) : Int) - (UINT_RANGE : Int)

/-- The value of an `int` expression whose exact value is `x`: wrapped into 32 bits. -/
def int_wrap (x : Int) : Int :=
  (x + 2 ^ 31) % 2 ^ 32 - 2 ^ 31

/-- The bytes of the element at index `i`: the `objsize` bytes at `data + objsize * i`. -/
def elem (v : Vector) (i : Nat) : List Nat :=
  mem_read v.data (v.objsize * i) v.objsize

/-- The function `handle_err` with no handler installed: the process exits with
`error_type`. -/
def handle_err (error_type : ArrayUtilsErrors) : Except ArrayUtilsErrors Unit :=
  Except.error error_type

/-- The statement `ASSERT_MIN_SIZE_CAPACITY(V, i, error_type, ...)`. -/
def ASSERT_MIN_SIZE_CAPACITY (V : Vector) (i : Nat) (error_type : ArrayUtilsErrors) :
    Except ArrayUtilsErrors Unit :=
  if i ≥ V.size then handle_err error_type else Except.ok ()

/-- The function `vector_new`; `std_capacity` is the global of that name. -/
def vector_new (std_capacity : Nat) (objsize : Nat) : Vector :=
  { objsize := objsize
    capacity := std_capacity
    size := 0
    data := safe_alloc (uint_mul objsize std_capacity) }

/-- The function `vector_fromsize`. -/
def vector_fromsize (objsize : Nat) (capacity : Nat) : Vector :=
  { objsize := objsize
    capacity := capacity
    size := 0
    data := safe_alloc (objsize * capacity) }

/-- The function `add`; `realloc_factor` is the global of that name. -/
def add (realloc_factor : Nat) (vect : Vector) (obj : List Nat) : Vector :=
  let vect :=
    if vect.size = vect.capacity then
      { vect with
        data := safe_realloc vect.data (vect.capacity * realloc_factor * vect.objsize)
        capacity := vect.capacity * realloc_factor }
    else vect
  { vect with
    data := memcpy vect.data (vect.objsize * vect.size) obj 0 vect.objsize
    size := vect.size + 1 }

/-- The function `access`: the offset of the element and the vector as it is left. -/
def access (v : Vector) (i : Nat) : Except ArrayUtilsErrors (Nat × Vector) := do
  ASSERT_MIN_SIZE_CAPACITY v i ArrayUtilsErrors.OutOfBoundsAccessError
  return (uint_mul v.objsize i, v)

/-- The function `copy_access`: the bytes of the new block and the vector as it is left. -/
def copy_access (v : Vector) (i : Nat) : Except ArrayUtilsErrors (List Nat × Vector) := do
  ASSERT_MIN_SIZE_CAPACITY v i ArrayUtilsErrors.OutOfBoundsAccessError
  let elem := safe_alloc v.objsize
  let elem := memcpy elem 0 v.data (uint_mul v.objsize i) v.objsize
  return (elem, v)

/-- The function `pop`: the bytes of the copy and the vector as it is left. -/
def pop (vect : Vector) : Except ArrayUtilsErrors (List Nat × Vector) := do
  ASSERT_MIN_SIZE_CAPACITY vect 0 ArrayUtilsErrors.EmptyPopError
  let cpy := malloc vect.objsize
  let vect := { vect with size := vect.size - 1 }
  let cpy := memcpy cpy 0 vect.data (vect.objsize * vect.size) vect.objsize
  return (cpy, vect)

/-- The function `pop_noret`. -/
def pop_noret (vect : Vector) : Except ArrayUtilsErrors Vector := do
  ASSERT_MIN_SIZE_CAPACITY vect 0 ArrayUtilsErrors.EmptyPopError
  return { vect with size := vect.size - 1 }

/-- The function `delete_noret`. -/
def delete_noret (vect : Vector) (index : Nat) : Except ArrayUtilsErrors Vector := do
  ASSERT_MIN_SIZE_CAPACITY vect index ArrayUtilsErrors.OutOfBoundsAccessError
  let vect := { vect with
    data := memmove vect.data (uint_mul vect.objsize index) vect.data
      (uint_mul vect.objsize (index + 1)) (vect.objsize * (vect.size - index)) }
  return { vect with size := vect.size - 1 }

/-- The function `delete`: the bytes of the copy and the vector as it is left. -/
def delete (vect : Vector) (index : Nat) : Except ArrayUtilsErrors (List Nat × Vector) := do
  ASSERT_MIN_SIZE_CAPACITY vect index ArrayUtilsErrors.OutOfBoundsAccessError
  let cpy := malloc vect.objsize
  let cpy := memcpy cpy 0 vect.data (uint_mul vect.objsize index) vect.objsize
  let vect := { vect with
    data := memmove vect.data (uint_mul vect.objsize index) vect.data
      (uint_mul vect.objsize (index + 1)) (vect.objsize * (vect.size - index)) }
  return (cpy, { vect with size := vect.size - 1 })

/-- The loop `while (vect->capacity < nobj)` of `fill`, run for at most `fuel` tests of its
condition. -/
def fill_grow (realloc_factor : Nat) (nobj : Nat) : Nat → Vector → Option Vector
  | 0, _ => none
  | fuel + 1, vect =>
    if vect.capacity < nobj then
      fill_grow realloc_factor nobj fuel
        { vect with
          data := safe_realloc vect.data (vect.capacity * realloc_factor * vect.objsize)
          capacity := vect.capacity * realloc_factor }
    else some vect

/-- The function `fill`. -/
def fill (fuel : Nat) (realloc_factor : Nat) (vect : Vector) (val : List Nat) (nobj : Nat) :
    Option Vector := do
  let vect ← fill_grow realloc_factor nobj fuel vect
  let data := (List.range nobj).foldl
    (fun data i => memcpy data (uint_mul vect.objsize i) val 0 vect.objsize) vect.data
  return { vect with data := data, size := nobj }

/-- The number of values of an `unsigned long`. -/
def ULONG_RANGE : Nat := 2 ^ 64

/-- Conversion of an `int` to `unsigned long`. -/
def to_ulong (x : Int) : Nat :=
  (x % (ULONG_RANGE : Int)).toNat

/-- The expression `at + size - 1` of the range checks, in `unsigned long` arithmetic. -/
def last_index (at_ : Int) (size : Nat) : Nat :=
  (((to_ulong at_ + size) % ULONG_RANGE) + (ULONG_RANGE - 1)) % ULONG_RANGE

/-- The values that `i` takes in `for (int i = at; i < size; i++)`, where `i < size` compares
in `unsigned long`; `i` is an `int`, and the loop is taken to end when `i++` leaves the range
of `int`. -/
def loop_indices (at_ : Int) (size : Nat) : List Nat :=
  List.range' (to_ulong at_) (min size (2 ^ 31) - to_ulong at_)

/-- The loop of `n_matches_from_index` over the values of `i`. -/
def n_matches_loop (vect : Vector) (val : List Nat) : List Nat → Int
  | [] => 1
  | i :: rest =>
    if memcmp vect.data (uint_mul i vect.objsize) val 0 vect.objsize ≠ 0 then 0
    else n_matches_loop vect val rest

/-- The function `n_matches_from_index`. -/
def n_matches_from_index (vect : Vector) (val : List Nat) (at_ : Int) (size : Nat) :
    Except ArrayUtilsErrors Int := do
  ASSERT_MIN_SIZE_CAPACITY vect (to_ulong at_) ArrayUtilsErrors.OutOfBoundsAccessError
  ASSERT_MIN_SIZE_CAPACITY vect (last_index at_ size) ArrayUtilsErrors.OutOfBoundsAccessError
  return n_matches_loop vect val (loop_indices at_ size)

/-- The loop of `any_match_from_index` over the values of `i`: the returned value and the
value stored in `*n`. -/
def any_match_loop (vect : Vector) (val : List Nat) : List Nat → Int × Int
  | [] => (0, -1)
  | i :: rest =>
    if memcmp vect.data (uint_mul i vect.objsize) val 0 vect.objsize = 0 then (1, (i : Int))
    else any_match_loop vect val rest

/-- The function `any_match_from_index`: the returned value and the value stored in `*n`. -/
def any_match_from_index (vect : Vector) (val : List Nat) (at_ : Int) (size : Nat) :
    Except ArrayUtilsErrors (Int × Int) := do
  ASSERT_MIN_SIZE_CAPACITY vect (to_ulong at_) ArrayUtilsErrors.OutOfBoundsAccessError
  ASSERT_MIN_SIZE_CAPACITY vect (last_index at_ size) ArrayUtilsErrors.OutOfBoundsAccessError
  return any_match_loop vect val (loop_indices at_ size)

/-- The function `all_match`. -/
def all_match (vect : Vector) (val : List Nat) : Except ArrayUtilsErrors Int :=
  n_matches_from_index vect val 0 vect.size

/-- The function `any_match`: the returned value and the value stored in `*n`. -/
def any_match (vect : Vector) (val : List Nat) : Except ArrayUtilsErrors (Int × Int) :=
  any_match_from_index vect val 0 vect.size

/-- The loop of `count_match_from_index` over the values of `i`, from the count so far. -/
def count_match_loop (vect : Vector) (val : List Nat) (count : Int) (is : List Nat) : Int :=
  is.foldl
    (fun count i =>
      if memcmp vect.data (uint_mul i vect.objsize) val 0 vect.objsize = 0 then
        int_wrap (count + 1)
      else count)
    count

/-- The function `count_match_from_index`. -/
def count_match_from_index (vect : Vector) (val : List Nat) (at_ : Int) (size : Nat) :
    Except ArrayUtilsErrors Int := do
  ASSERT_MIN_SIZE_CAPACITY vect (to_ulong at_) ArrayUtilsErrors.OutOfBoundsAccessError
  ASSERT_MIN_SIZE_CAPACITY vect (last_index at_ size) ArrayUtilsErrors.OutOfBoundsAccessError
  return count_match_loop vect val 0 (loop_indices at_ size)

/-- The function `count_matches`. -/
def count_matches (vect : Vector) (val : List Nat) : Except ArrayUtilsErrors Int :=
  count_match_from_index vect val 0 vect.size

/-- The function `reverse`: with `n = (int)size`, `j` counts up from `0` while
`i = n - 1 - j` counts down to `0`; the loop does not run when `n` is not positive. -/
def reverse (vect : Vector) : Vector :=
  let objs := safe_alloc (vect.objsize * vect.capacity)
  let n := (to_int vect.size).toNat
  let objs := (List.range n).foldl
    (fun objs j =>
      memcpy objs (uint_mul j vect.objsize) vect.data (uint_mul (n - 1 - j) vect.objsize)
        vect.objsize)
    objs
  { vect with data := objs }

/-- The function `extract_match`: the offset of the match, or `none` for `NULL`. -/
def extract_match (vect : Vector) (val : List Nat) : Except ArrayUtilsErrors (Option Nat) := do
  let (found, i) ← any_match vect val
  if found ≠ 0 then return some (uint_mul i.toNat vect.objsize)
  return none

/-- The loop `while (vect->size + nobj >= vect->capacity)` of the four `add_range` functions,
run for at most `fuel` tests of its condition. -/
def add_range_grow (realloc_factor : Nat) (nobj : Nat) : Nat → Vector → Option Vector
  | 0, _ => none
  | fuel + 1, vect =>
    if vect.size + nobj ≥ vect.capacity then
      add_range_grow realloc_factor nobj fuel
        { vect with
          data := safe_realloc vect.data (vect.capacity * realloc_factor * vect.objsize)
          capacity := vect.capacity * realloc_factor }
    else some vect

/-- The function `add_range_move`; `objs` is the block of the supplied elements. -/
def add_range_move (fuel : Nat) (realloc_factor : Nat) (vect : Vector) (objs : List Nat)
    (nobj : Nat) : Option Vector := do
  let vect ← add_range_grow realloc_factor nobj fuel vect
  let data := memmove vect.data (vect.size * vect.objsize) objs 0 (uint_mul vect.objsize nobj)
  return { vect with data := data, size := vect.size + nobj }

/-- The function `add_range_copy`; `objs` is the block of the supplied elements. -/
def add_range_copy (fuel : Nat) (realloc_factor : Nat) (vect : Vector) (objs : List Nat)
    (nobj : Nat) : Option Vector := do
  let vect ← add_range_grow realloc_factor nobj fuel vect
  let data := memcpy vect.data (vect.size * vect.objsize) objs 0 (uint_mul vect.objsize nobj)
  return { vect with data := data, size := vect.size + nobj }

/-- The function `add_range_move_at`; `objs` is the block of the supplied elements. The range
check comes before the loop, so a failed check does not depend on `fuel`. -/
def add_range_move_at (fuel : Nat) (realloc_factor : Nat) (vect : Vector) (objs : List Nat)
    (nobj : Nat) (at_ : Nat) : Option (Except ArrayUtilsErrors Vector) :=
  match ASSERT_MIN_SIZE_CAPACITY vect at_ ArrayUtilsErrors.OutOfBoundsAccessError with
  | Except.error e => some (Except.error e)
  | Except.ok _ => do
    let vect ← add_range_grow realloc_factor nobj fuel vect
    let data := memmove vect.data (uint_mul vect.objsize (at_ + nobj)) vect.data
      (uint_mul vect.objsize at_) (vect.objsize * (vect.size - at_))
    let data := memmove data (uint_mul vect.objsize at_) objs 0 (uint_mul vect.objsize nobj)
    return Except.ok { vect with data := data, size := vect.size + nobj }

/-- The function `add_range_copy_at`; `objs` is the block of the supplied elements. The range
check comes before the loop, so a failed check does not depend on `fuel`. -/
def add_range_copy_at (fuel : Nat) (realloc_factor : Nat) (vect : Vector) (objs : List Nat)
    (nobj : Nat) (at_ : Nat) : Option (Except ArrayUtilsErrors Vector) :=
  match ASSERT_MIN_SIZE_CAPACITY vect at_ ArrayUtilsErrors.OutOfBoundsAccessError with
  | Except.error e => some (Except.error e)
  | Except.ok _ => do
    let vect ← add_range_grow realloc_factor nobj fuel vect
    let data := memmove vect.data (uint_mul vect.objsize (at_ + nobj)) vect.data
      (uint_mul vect.objsize at_) (vect.objsize * (vect.size - at_))
    let data := memcpy data (uint_mul vect.objsize at_) objs 0 (uint_mul vect.objsize nobj)
    return Except.ok { vect with data := data, size := vect.size + nobj }

/-- The function `replace_range_move`; `objs` is the block of the supplied elements. -/
def replace_range_move (vect : Vector) (objs : List Nat) (nobj : Nat) (at_ : Nat) :
    Except ArrayUtilsErrors Vector := do
  if nobj > vect.size then
    handle_err ArrayUtilsErrors.ReplaceMoreThanCurrentSizeError
  return { vect with
    data := memmove vect.data (uint_mul vect.objsize at_) objs 0 (uint_mul vect.objsize nobj) }

/-- The function `replace_range_copy`; `objs` is the block of the supplied elements. -/
def replace_range_copy (vect : Vector) (objs : List Nat) (nobj : Nat) (at_ : Nat) :
    Except ArrayUtilsErrors Vector := do
  if nobj > vect.size then
    handle_err ArrayUtilsErrors.ReplaceMoreThanCurrentSizeError
  return { vect with
    data := memcpy vect.data (uint_mul vect.objsize at_) objs 0 (uint_mul vect.objsize nobj) }

/-! ## The error channel with a handler installed -/

/-- The function `handle_err` in either state of the channel, from the errors raised so far.
With `SIGNAL_USR_ArrayUtils = 0` the process exits with `error_type`. With a handler installed
`SIGUSR1` is raised and, when the handler has returned, `handle_err` returns to its caller:
the error joins the ones raised. -/
def handle_err_mode (SIGNAL_USR_ArrayUtils : Bool) (error_type : ArrayUtilsErrors)
    (raised : List ArrayUtilsErrors) : Except ArrayUtilsErrors (List ArrayUtilsErrors) :=
  if !SIGNAL_USR_ArrayUtils then Except.error error_type
  else Except.ok (raised ++ [error_type])

/-- The statement `ASSERT_MIN_SIZE_CAPACITY(V, i, error_type, ...)` in either state of the
channel. -/
def ASSERT_MIN_SIZE_CAPACITY_mode (SIGNAL_USR_ArrayUtils : Bool) (V : Vector) (i : Nat)
    (error_type : ArrayUtilsErrors) (raised : List ArrayUtilsErrors) :
    Except ArrayUtilsErrors (List ArrayUtilsErrors) :=
  if i ≥ V.size then handle_err_mode SIGNAL_USR_ArrayUtils error_type raised
  else Except.ok raised

/-- The statement `vect->size--` on an `unsigned long`. -/
def ulong_decr (size : Nat) : Nat :=
  (size + (ULONG_RANGE - 1)) % ULONG_RANGE

/-- The function `pop_noret` in either state of the channel: the errors raised and the vector
as it is left. -/
def pop_noret_mode (SIGNAL_USR_ArrayUtils : Bool) (vect : Vector) :
    Except ArrayUtilsErrors (List ArrayUtilsErrors × Vector) := do
  let raised ← ASSERT_MIN_SIZE_CAPACITY_mode SIGNAL_USR_ArrayUtils vect 0
    ArrayUtilsErrors.EmptyPopError []
  return (raised, { vect with size := ulong_decr vect.size })

/-- The function `pop` in either state of the channel: the errors raised, the bytes of the
copy and the vector as it is left. -/
def pop_mode (SIGNAL_USR_ArrayUtils : Bool) (vect : Vector) :
    Except ArrayUtilsErrors (List ArrayUtilsErrors × List Nat × Vector) := do
  let raised ← ASSERT_MIN_SIZE_CAPACITY_mode SIGNAL_USR_ArrayUtils vect 0
    ArrayUtilsErrors.EmptyPopError []
  let cpy := malloc vect.objsize
  let vect := { vect with size := ulong_decr vect.size }
  let cpy := memcpy cpy 0 vect.data (vect.objsize * vect.size) vect.objsize
  return (raised, cpy, vect)

/-! ## The registry -/

/-- The structure `struct AllocatedArrays`. A pointer to a vector is a number; `vectors` is
the block of pointers, one entry of the list for each pointer it has room for, and the empty
list for `NULL`. -/
structure AllocatedArrays where
  vectors : List Nat
  nvectors : Nat
  capacity : Nat
  deriving DecidableEq, Repr

/-- The global `allocatedArrays` as it is initialised. -/
def allocatedArrays : AllocatedArrays :=
  { vectors := []
    nvectors := 0
    capacity := 1 }

/-- The function `vector`, on the registry: `v` is the pointer that
`safe_alloc(sizeof(Vector))` returned, and the result is the registry as the call leaves it.
Blocks of pointers are measured in pointers. -/
def vector (realloc_factor : Nat) (allocatedArrays : AllocatedArrays) (v : Nat) :
    AllocatedArrays :=
  let allocatedArrays :=
    if allocatedArrays.nvectors = 0 then
      { allocatedArrays with vectors := safe_alloc allocatedArrays.capacity }
    else allocatedArrays
  let allocatedArrays := { allocatedArrays with nvectors := allocatedArrays.nvectors + 1 }
  let allocatedArrays :=
    if allocatedArrays.nvectors > allocatedArrays.capacity then
      { allocatedArrays with
        capacity := allocatedArrays.capacity * realloc_factor
        vectors := safe_realloc allocatedArrays.vectors
          (allocatedArrays.capacity * realloc_factor) }
    else allocatedArrays
  { allocatedArrays with
    vectors := allocatedArrays.vectors.set (allocatedArrays.nvectors - 1) v }

/-! ## The byte ranges of the buffer that an operation reads and stores -/

/-- A range `[lo, hi)` of byte offsets from `data`. -/
structure ByteRange where
  lo : Nat
  hi : Nat
  deriving DecidableEq, Repr

/-- The range of the `n` bytes from offset `off` on: what `memcpy` and `memmove` read at a
source `data + off` and store at a destination `data + off`. -/
def byte_range (off n : Nat) : ByteRange :=
  { lo := off, hi := off + n }

/-- Every byte of the range lies in `[0, capacity * objsize)`: the range is empty or ends at
`capacity * objsize` at most. -/
@[reducible] def in_buffer (vect : Vector) (r : ByteRange) : Prop :=
  r.hi ≤ r.lo ∨ r.hi ≤ vect.capacity * vect.objsize

/-- The ranges of the buffer that `delete_noret(index)` reads once its range check has passed:
the source of its `memmove`. -/
def delete_noret_reads (vect : Vector) (index : Nat) : List ByteRange :=
  [byte_range (uint_mul vect.objsize (index + 1)) (vect.objsize * (vect.size - index))]

/-- The ranges of the buffer that `delete_noret(index)` stores to once its range check has
passed: the destination of its `memmove`. -/
def delete_noret_writes (vect : Vector) (index : Nat) : List ByteRange :=
  [byte_range (uint_mul vect.objsize index) (vect.objsize * (vect.size - index))]

/-- The ranges of the buffer that `delete(index)` reads once its range check has passed: the
source of its `memcpy`, then the source of its `memmove`. -/
def delete_reads (vect : Vector) (index : Nat) : List ByteRange :=
  [byte_range (uint_mul vect.objsize index) vect.objsize,
    byte_range (uint_mul vect.objsize (index + 1)) (vect.objsize * (vect.size - index))]

/-- The ranges of the buffer that `delete(index)` stores to once its range check has passed:
the destination of its `memmove`. -/
def delete_writes (vect : Vector) (index : Nat) : List ByteRange :=
  [byte_range (uint_mul vect.objsize index) (vect.objsize * (vect.size - index))]

/-- The invariant of the data model: the capacity is at least one, the size is at most the
capacity and the buffer holds at least `capacity` elements. -/
def wf (v : Vector) : Prop :=
  1 ≤ v.capacity ∧ v.size ≤ v.capacity ∧ v.capacity * v.objsize ≤ v.data.length

/-! ## Memory lemmas -/

theorem byte_at_of_le (block : List Nat) (a : Nat) (h : block.length ≤ a) :
    byte_at block a = 0 := by
  unfold byte_at
  rw [List.getD_eq_default _ _ h]

@[simp] theorem length_mem_read (block : List Nat) (off n : Nat) :
    (mem_read block off n).length = n := by
  simp [mem_read]

@[simp] theorem length_mem_write (block : List Nat) (off : Nat) (src : List Nat) :
    (mem_write block off src).length = block.length := by
  simp [mem_write]

theorem byte_at_mem_read (block : List Nat) (off n k : Nat) :
    byte_at (mem_read block off n) k = if k < n then byte_at block (off + k) else 0 := by
  by_cases h : k < n
  · simp [byte_at, mem_read, h, List.getElem?_range]
  · have h1 : n ≤ k := Nat.le_of_not_lt h
    rw [byte_at_of_le _ _ (by simpa using h1)]
    simp [h]

theorem byte_at_mem_write (block : List Nat) (off : Nat) (src : List Nat) (a : Nat) :
    byte_at (mem_write block off src) a =
      if a < block.length ∧ off ≤ a ∧ a < off + src.length then byte_at src (a - off)
      else byte_at block a := by
  by_cases h : a < block.length
  · simp only [h, true_and]
    simp [byte_at, mem_write, h, List.getElem?_range]
  · have h1 : block.length ≤ a := Nat.le_of_not_lt h
    rw [byte_at_of_le _ _ (by simpa using h1), byte_at_of_le _ _ h1]
    simp [h]

theorem byte_at_replicate (n a : Nat) : byte_at (List.replicate n 0) a = 0 := by
  by_cases h : a < n
  · simp [byte_at, h, List.getElem?_replicate]
  · exact byte_at_of_le _ _ (by simpa using h)

theorem byte_at_realloc (ptr : List Nat) (size a : Nat) :
    byte_at (realloc ptr size) a = if a < size then byte_at ptr a else 0 := by
  unfold realloc
  by_cases h : a < size
  · simp only [h, if_true]
    by_cases h2 : a < ptr.length
    · have h3 : a < (List.take size ptr).length := by simp; omega
      simp [byte_at, List.getElem?_append_left h3, List.getElem?_take, h]
    · have h3 : (List.take size ptr).length ≤ a := by simp; omega
      rw [byte_at_of_le ptr a (by omega)]
      simp [byte_at, List.getElem?_append_right h3, List.getElem?_replicate]
      split <;> rfl
  · simp only [h, if_false]
    apply byte_at_of_le
    simp; omega

@[simp] theorem length_realloc (ptr : List Nat) (size : Nat) :
    (realloc ptr size).length = size := by
  simp [realloc]; omega

theorem eq_of_byte_at (l l2 : List Nat) (hlen : l.length = l2.length)
    (h : ∀ k, k < l.length → byte_at l k = byte_at l2 k) : l = l2 := by
  apply List.ext_getElem hlen
  intro k h1 h2
  have := h k h1
  simpa [byte_at, List.getD_eq_getElem?_getD, List.getElem?_eq_getElem h1,
    List.getElem?_eq_getElem h2] using this

theorem mem_read_congr (b b2 : List Nat) (off off2 n : Nat)
    (h : ∀ k, k < n → byte_at b (off + k) = byte_at b2 (off2 + k)) :
    mem_read b off n = mem_read b2 off2 n := by
  apply eq_of_byte_at _ _ (by simp)
  intro k hk
  rw [length_mem_read] at hk
  rw [byte_at_mem_read, byte_at_mem_read]
  simp [hk, h k hk]

theorem mem_read_self (l : List Nat) (n : Nat) (h : l.length = n) : mem_read l 0 n = l := by
  apply eq_of_byte_at _ _ (by simp [h])
  intro k hk
  rw [length_mem_read] at hk
  rw [byte_at_mem_read]
  simp [hk]

theorem mem_read_mem_write_same (b : List Nat) (off : Nat) (src : List Nat)
    (h : off + src.length ≤ b.length) :
    mem_read (mem_write b off src) off src.length = src := by
  apply eq_of_byte_at _ _ (by simp)
  intro k hk
  rw [length_mem_read] at hk
  rw [byte_at_mem_read, byte_at_mem_write]
  have h1 : off + k < b.length ∧ off ≤ off + k ∧ off + k < off + src.length := by omega
  simp [hk, h1]

theorem mem_read_mem_write_disjoint (b : List Nat) (off : Nat) (src : List Nat) (off2 n : Nat)
    (h : off2 + n ≤ off ∨ off + src.length ≤ off2) :
    mem_read (mem_write b off src) off2 n = mem_read b off2 n := by
  apply mem_read_congr
  intro k hk
  rw [byte_at_mem_write]
  have h1 : ¬ (off2 + k < b.length ∧ off ≤ off2 + k ∧ off2 + k < off + src.length) := by omega
  simp [h1]

theorem mem_read_realloc (ptr : List Nat) (size off n : Nat) (h : off + n ≤ size) :
    mem_read (realloc ptr size) off n = mem_read ptr off n := by
  apply mem_read_congr
  intro k hk
  rw [byte_at_realloc]
  have h1 : off + k < size := by omega
  simp [h1]

/-- Slot `i` of a buffer of `c` slots of `s` bytes ends inside the buffer. -/
theorem slot_le (s i c : Nat) (h : i < c) : s * i + s ≤ c * s := by
  have h1 : s * (i + 1) ≤ s * c := Nat.mul_le_mul_left s h
  rw [Nat.mul_succ] at h1
  rw [Nat.mul_comm c s]
  exact h1

/-- Slot `i` ends where a later slot `j` starts, or before. -/
theorem slot_disjoint (s i j : Nat) (h : i < j) : s * i + s ≤ s * j := by
  have h1 : s * (i + 1) ≤ s * j := Nat.mul_le_mul_left s h
  rw [Nat.mul_succ] at h1
  exact h1

theorem mem_read_memcpy_same (d : List Nat) (doff : Nat) (src : List Nat) (soff n : Nat)
    (h : doff + n ≤ d.length) :
    mem_read (memcpy d doff src soff n) doff n = mem_read src soff n := by
  have h1 := mem_read_mem_write_same d doff (mem_read src soff n) (by simpa using h)
  simpa [memcpy] using h1

theorem mem_read_memcpy_disjoint (d : List Nat) (doff : Nat) (src : List Nat) (soff n off2 m : Nat)
    (h : off2 + m ≤ doff ∨ doff + n ≤ off2) :
    mem_read (memcpy d doff src soff n) off2 m = mem_read d off2 m := by
  unfold memcpy
  exact mem_read_mem_write_disjoint d doff _ off2 m (by simpa using h)

@[simp] theorem length_memcpy (d : List Nat) (doff : Nat) (src : List Nat) (soff n : Nat) :
    (memcpy d doff src soff n).length = d.length := by
  simp [memcpy]

theorem byte_at_memmove (d : List Nat) (doff : Nat) (src : List Nat) (soff n a : Nat) :
    byte_at (memmove d doff src soff n) a =
      if a < d.length ∧ doff ≤ a ∧ a < doff + n then byte_at src (soff + (a - doff))
      else byte_at d a := by
  unfold memmove
  rw [byte_at_mem_write, length_mem_read]
  split
  · next h => rw [byte_at_mem_read, if_pos (by omega)]
  · rfl

theorem memcpy_malloc (src : List Nat) (soff n : Nat) :
    memcpy (malloc n) 0 src soff n = mem_read src soff n := by
  apply eq_of_byte_at _ _ (by simp [malloc])
  intro k hk
  simp only [length_memcpy, malloc, List.length_replicate] at hk
  unfold memcpy
  rw [byte_at_mem_write]
  simp [malloc, hk]

/-! ## 32-bit arithmetic -/

theorem uint_mul_of_lt (a b : Nat) (h : a * b < UINT_RANGE) : uint_mul a b = a * b :=
  Nat.mod_eq_of_lt h

theorem uint_mul_comm (a b : Nat) : uint_mul a b = uint_mul b a := by
  unfold uint_mul
  rw [Nat.mul_comm]

/-- A product that fits in 32 bits keeps fitting when a factor gets smaller. -/
theorem mul_lt_of_le (a b c : Nat) (h : b ≤ c) (hc : a * c < UINT_RANGE) :
    a * b < UINT_RANGE :=
  Nat.lt_of_le_of_lt (Nat.mul_le_mul_left a h) hc

/-- The offset of an element below `n` fits in 32 bits when `n` elements take at most
`2 ^ 32` bytes. -/
theorem slot_lt_uint (s i n : Nat) (hi : i < n) (h : s * n ≤ UINT_RANGE) :
    s * i < UINT_RANGE := by
  rcases Nat.eq_zero_or_pos s with h0 | hpos
  · rw [h0, Nat.zero_mul]
    decide
  · have := slot_disjoint s i n hi
    omega

theorem to_int_of_lt (x : Nat) (h : x < 2 ^ 31) : to_int x = (x : Int) := by
  have h1 : x % UINT_RANGE = x := Nat.mod_eq_of_lt (by unfold UINT_RANGE; omega)
  unfold to_int
  rw [h1, if_pos h]

theorem int_wrap_of_lt (x : Int) (h0 : 0 ≤ x) (h : x < 2 ^ 31) : int_wrap x = x := by
  unfold int_wrap
  omega

/-! ## add -/

@[simp] theorem add_size (f : Nat) (v : Vector) (obj : List Nat) :
    (add f v obj).size = v.size + 1 := by
  unfold add
  split <;> rfl

@[simp] theorem add_objsize (f : Nat) (v : Vector) (obj : List Nat) :
    (add f v obj).objsize = v.objsize := by
  unfold add
  split <;> rfl

theorem add_capacity (f : Nat) (v : Vector) (obj : List Nat) :
    (add f v obj).capacity = if v.size = v.capacity then v.capacity * f else v.capacity := by
  unfold add
  split <;> rfl

theorem add_data (f : Nat) (v : Vector) (obj : List Nat) :
    (add f v obj).data =
      memcpy (if v.size = v.capacity then safe_realloc v.data (v.capacity * f * v.objsize)
        else v.data) (v.objsize * v.size) obj 0 v.objsize := by
  unfold add
  split <;> rfl

theorem add_wf (f : Nat) (v : Vector) (obj : List Nat) (hf : 2 ≤ f) (hv : wf v) :
    wf (add f v obj) := by
  obtain ⟨h1, h2, h3⟩ := hv
  have hmul : v.capacity * 2 ≤ v.capacity * f := Nat.mul_le_mul_left _ hf
  refine ⟨?_, ?_, ?_⟩
  · rw [add_capacity]; split <;> omega
  · rw [add_capacity, add_size]; split <;> omega
  · rw [add_capacity, add_data, add_objsize, length_memcpy]
    split
    · simp [safe_realloc]
    · exact h3

/-- The buffer of `add` before the element is stored holds slot `size`. -/
theorem add_room (f : Nat) (v : Vector) (hf : 2 ≤ f) (hv : wf v) :
    v.objsize * v.size + v.objsize ≤
      (if v.size = v.capacity then safe_realloc v.data (v.capacity * f * v.objsize)
        else v.data).length := by
  obtain ⟨h1, h2, h3⟩ := hv
  have hmul : v.capacity * 2 ≤ v.capacity * f := Nat.mul_le_mul_left _ hf
  split
  · simp only [safe_realloc, length_realloc]
    exact slot_le _ _ _ (by omega)
  · have := slot_le v.objsize v.size v.capacity (by omega)
    omega

theorem add_elem_new (f : Nat) (v : Vector) (obj : List Nat) (hf : 2 ≤ f) (hv : wf v)
    (hobj : obj.length = v.objsize) : elem (add f v obj) v.size = obj := by
  unfold elem
  rw [add_data, add_objsize, mem_read_memcpy_same _ _ _ _ _ (add_room f v hf hv)]
  exact mem_read_self obj _ hobj

theorem add_elem_old (f : Nat) (v : Vector) (obj : List Nat) (hf : 2 ≤ f) (hv : wf v)
    (i : Nat) (hi : i < v.size) : elem (add f v obj) i = elem v i := by
  unfold elem
  rw [add_data, add_objsize,
    mem_read_memcpy_disjoint _ _ _ _ _ _ _ (Or.inl (slot_disjoint v.objsize i v.size hi))]
  split
  · obtain ⟨h1, h2, h3⟩ := hv
    have hmul : v.capacity * 2 ≤ v.capacity * f := Nat.mul_le_mul_left _ hf
    exact mem_read_realloc _ _ _ _ (slot_le _ _ _ (by omega))
  · rfl

theorem foldl_add_spec (f : Nat) (hf : 2 ≤ f) (objs : List (List Nat)) :
    ∀ v0 : Vector, wf v0 → (∀ o ∈ objs, o.length = v0.objsize) →
      wf (objs.foldl (add f) v0) ∧
      (objs.foldl (add f) v0).objsize = v0.objsize ∧
      (objs.foldl (add f) v0).size = v0.size + objs.length ∧
      (∀ i, i < v0.size → elem (objs.foldl (add f) v0) i = elem v0 i) ∧
      (∀ k (hk : k < objs.length), elem (objs.foldl (add f) v0) (v0.size + k) = objs[k]) := by
  induction objs with
  | nil =>
    intro v0 hv _
    exact ⟨hv, rfl, rfl, fun _ _ => rfl, fun k hk => absurd hk (Nat.not_lt_zero k)⟩
  | cons o os ih =>
    intro v0 hv hlen
    have ho : o.length = v0.objsize := hlen o (List.mem_cons_self o os)
    have hos : ∀ o2 ∈ os, o2.length = (add f v0 o).objsize := by
      intro o2 ho2
      rw [add_objsize]
      exact hlen o2 (List.mem_cons_of_mem o ho2)
    obtain ⟨w1, w2, w3, w4, w5⟩ := ih (add f v0 o) (add_wf f v0 o hf hv) hos
    rw [add_size] at w3 w4 w5
    rw [add_objsize] at w2
    simp only [List.foldl_cons, List.length_cons]
    refine ⟨w1, w2, by omega, ?_, ?_⟩
    · intro i hi
      rw [w4 i (by omega)]
      exact add_elem_old f v0 o hf hv i hi
    · intro k hk
      cases k with
      | zero =>
        rw [Nat.add_zero, w4 v0.size (by omega)]
        simpa using add_elem_new f v0 o hf hv ho
      | succ k =>
        have hk2 : k < os.length := by simpa using hk
        have := w5 k hk2
        rw [show v0.size + (k + 1) = v0.size + 1 + k by omega]
        simpa using this

theorem vector_fromsize_wf (objsize capacity : Nat) (h : 1 ≤ capacity) :
    wf (vector_fromsize objsize capacity) := by
  refine ⟨h, Nat.zero_le _, ?_⟩
  simp [vector_fromsize, safe_alloc, malloc, Nat.mul_comm]

/-! ## access, copy_access, pop, delete -/

theorem access_ok (v : Vector) (i : Nat) (h : i < v.size) :
    access v i = Except.ok (uint_mul v.objsize i, v) := by
  have h1 : ¬ i ≥ v.size := by omega
  simp [access, ASSERT_MIN_SIZE_CAPACITY, h1, bind, Except.bind, pure, Except.pure]

theorem access_error (v : Vector) (i : Nat) (h : v.size ≤ i) :
    access v i = Except.error ArrayUtilsErrors.OutOfBoundsAccessError := by
  have h1 : i ≥ v.size := h
  simp [access, ASSERT_MIN_SIZE_CAPACITY, handle_err, h1, bind, Except.bind]

theorem copy_access_ok (v : Vector) (i : Nat) (h : i < v.size) :
    copy_access v i = Except.ok (mem_read v.data (uint_mul v.objsize i) v.objsize, v) := by
  have h1 : ¬ i ≥ v.size := by omega
  simp [copy_access, ASSERT_MIN_SIZE_CAPACITY, h1, bind, Except.bind, pure, Except.pure,
    safe_alloc, memcpy_malloc]

theorem copy_access_error (v : Vector) (i : Nat) (h : v.size ≤ i) :
    copy_access v i = Except.error ArrayUtilsErrors.OutOfBoundsAccessError := by
  have h1 : i ≥ v.size := h
  simp [copy_access, ASSERT_MIN_SIZE_CAPACITY, handle_err, h1, bind, Except.bind]

theorem pop_ok (v : Vector) (h : 0 < v.size) :
    pop v = Except.ok
      (mem_read v.data (v.objsize * (v.size - 1)) v.objsize, { v with size := v.size - 1 }) := by
  have h1 : ¬ v.size = 0 := by omega
  simp [pop, ASSERT_MIN_SIZE_CAPACITY, h1, bind, Except.bind, pure, Except.pure, memcpy_malloc]

theorem delete_noret_ok (v : Vector) (i : Nat) (h : i < v.size) :
    delete_noret v i = Except.ok
      { v with
        data := memmove v.data (uint_mul v.objsize i) v.data (uint_mul v.objsize (i + 1))
          (v.objsize * (v.size - i))
        size := v.size - 1 } := by
  have h1 : ¬ i ≥ v.size := by omega
  simp [delete_noret, ASSERT_MIN_SIZE_CAPACITY, h1, bind, Except.bind, pure, Except.pure]

theorem delete_ok (v : Vector) (i : Nat) (h : i < v.size) :
    delete v i = Except.ok
      (mem_read v.data (uint_mul v.objsize i) v.objsize,
        { v with
          data := memmove v.data (uint_mul v.objsize i) v.data (uint_mul v.objsize (i + 1))
            (v.objsize * (v.size - i))
          size := v.size - 1 }) := by
  have h1 : ¬ i ≥ v.size := by omega
  simp [delete, ASSERT_MIN_SIZE_CAPACITY, h1, bind, Except.bind, pure, Except.pure,
    memcpy_malloc]

/-- Elements below the removed index are not touched by the move of `delete`. -/
theorem delete_move_below (d : List Nat) (s size i j : Nat) (hj : j < i) :
    mem_read (memmove d (s * i) d (s * (i + 1)) (s * (size - i))) (s * j) s =
      mem_read d (s * j) s := by
  unfold memmove
  exact mem_read_mem_write_disjoint _ _ _ _ _ (Or.inl (slot_disjoint s j i hj))

/-- From the removed index on, the move of `delete` brings each element one slot down. -/
theorem delete_move_above (d : List Nat) (s size i j : Nat) (hij : i ≤ j) (hj : j + 1 < size) :
    mem_read (memmove d (s * i) d (s * (i + 1)) (s * (size - i))) (s * j) s =
      mem_read d (s * (j + 1)) s := by
  apply mem_read_congr
  intro k hk
  rw [byte_at_memmove]
  have e1 : s * i ≤ s * j := Nat.mul_le_mul_left s hij
  have e2 : s * j + s ≤ s * size := slot_disjoint s j size (by omega)
  have e3 : s * i + s * (size - i) = s * size := by
    rw [← Nat.mul_add]; congr 1; omega
  have e4 : s * (i + 1) = s * i + s := Nat.mul_succ s i
  have e5 : s * (j + 1) = s * j + s := Nat.mul_succ s j
  by_cases hlen : s * j + k < d.length
  · rw [if_pos (by omega)]
    congr 1
    omega
  · rw [if_neg (by omega), byte_at_of_le _ _ (by omega), byte_at_of_le _ _ (by omega)]

/-! ## Loops that store one element per slot -/

/-- A loop that stores the `s` bytes `g j` in slot `j`, for `j = 0, ..., m - 1`: the length of
the block is kept, and slot `j` holds `g j` at the end if it lies inside the block. -/
theorem foldl_store_slots (s : Nat) (g : Nat → List Nat) (hg : ∀ j, (g j).length = s)
    (b : List Nat) (m : Nat) :
    ((List.range m).foldl (fun acc j => mem_write acc (s * j) (g j)) b).length = b.length ∧
    ∀ j, j < m → s * j + s ≤ b.length →
      mem_read ((List.range m).foldl (fun acc j => mem_write acc (s * j) (g j)) b) (s * j) s
        = g j := by
  induction m with
  | zero => exact ⟨rfl, fun j hj => absurd hj (Nat.not_lt_zero j)⟩
  | succ m ih =>
    obtain ⟨ih1, ih2⟩ := ih
    rw [List.range_succ, List.foldl_append]
    simp only [List.foldl_cons, List.foldl_nil]
    refine ⟨by rw [length_mem_write, ih1], ?_⟩
    intro j hj hroom
    by_cases hjm : j < m
    · rw [mem_read_mem_write_disjoint _ _ _ _ _ (Or.inl (slot_disjoint s j m hjm))]
      exact ih2 j hjm hroom
    · have hjm2 : j = m := by omega
      subst hjm2
      have h := mem_read_mem_write_same
        ((List.range j).foldl (fun acc j => mem_write acc (s * j) (g j)) b) (s * j) (g j)
        (by rw [hg, ih1]; exact hroom)
      rw [hg] at h
      exact h

/-! ## reverse -/

/-- The number of times that the loop of `reverse` runs, when the size fits in an `int`. -/
theorem reverse_count (v : Vector) (hint : v.size < 2 ^ 31) :
    (to_int v.size).toNat = v.size := by
  rw [to_int_of_lt v.size hint]
  exact Int.toNat_ofNat _

theorem reverse_data (v : Vector) (hint : v.size < 2 ^ 31)
    (hbytes : v.objsize * v.size ≤ UINT_RANGE) :
    (reverse v).data =
      (List.range v.size).foldl
        (fun acc j => mem_write acc (v.objsize * j) (elem v (v.size - 1 - j)))
        (List.replicate (v.objsize * v.capacity) 0) := by
  unfold reverse
  simp only [safe_alloc, malloc, memcpy, elem, reverse_count v hint]
  apply List.foldl_ext
  intro acc j hj
  rw [List.mem_range] at hj
  rw [uint_mul_comm j, uint_mul_comm (v.size - 1 - j),
    uint_mul_of_lt _ _ (slot_lt_uint v.objsize j v.size hj hbytes),
    uint_mul_of_lt _ _ (slot_lt_uint v.objsize (v.size - 1 - j) v.size (by omega) hbytes)]

theorem reverse_elem (v : Vector) (hsize : v.size ≤ v.capacity) (hint : v.size < 2 ^ 31)
    (hbytes : v.objsize * v.size ≤ UINT_RANGE) (j : Nat) (hj : j < v.size) :
    elem (reverse v) j = elem v (v.size - 1 - j) := by
  have h := (foldl_store_slots v.objsize (fun j => elem v (v.size - 1 - j))
    (fun j => by simp [elem]) (List.replicate (v.objsize * v.capacity) 0) v.size).2 j hj
    (by
      rw [List.length_replicate, Nat.mul_comm v.objsize v.capacity]
      exact slot_le _ _ _ (by omega))
  unfold elem
  rw [reverse_data v hint hbytes]
  exact h

/-! ## Matching -/

theorem memcmp_bytes_eq_zero (a b : List Nat) (h : a.length = b.length) :
    memcmp_bytes a b = 0 ↔ a = b := by
  induction a generalizing b with
  | nil =>
    cases b with
    | nil => simp [memcmp_bytes]
    | cons y ys => simp at h
  | cons x xs ih =>
    cases b with
    | nil => simp at h
    | cons y ys =>
      have hlen : xs.length = ys.length := by simpa using h
      by_cases hxy : x = y
      · subst hxy
        simp [memcmp_bytes, ih ys hlen]
      · have hne : (x : Int) - (y : Int) ≠ 0 := by omega
        simp [memcmp_bytes, hxy, hne]

/-- The comparison made by the matching loops at index `i` is zero exactly when the element
at `i` is byte-equal to `val`. -/
theorem memcmp_elem (v : Vector) (val : List Nat) (i : Nat) (hval : val.length = v.objsize)
    (hoff : v.objsize * i < UINT_RANGE) :
    memcmp v.data (uint_mul i v.objsize) val 0 v.objsize = 0 ↔ elem v i = val := by
  unfold memcmp elem
  rw [mem_read_self val _ hval, uint_mul_comm, uint_mul_of_lt _ _ hoff]
  exact memcmp_bytes_eq_zero _ _ (by simp [hval])

theorem to_ulong_zero : to_ulong 0 = 0 := by
  simp [to_ulong]

theorem last_index_zero_lt (n : Nat) (h : 0 < n) : last_index 0 n < n := by
  unfold last_index
  rw [to_ulong_zero]
  unfold ULONG_RANGE
  omega

theorem loop_indices_zero (n : Nat) (hint : n < 2 ^ 31) :
    loop_indices 0 n = List.range' 0 n := by
  simp only [loop_indices, to_ulong_zero, Nat.sub_zero]
  rw [Nat.min_eq_left (by omega)]

/-- The range checks of a whole-vector match pass on a vector that is not empty. -/
theorem assert_whole (v : Vector) (h : 0 < v.size) :
    ASSERT_MIN_SIZE_CAPACITY v (to_ulong 0) ArrayUtilsErrors.OutOfBoundsAccessError
        = Except.ok () ∧
      ASSERT_MIN_SIZE_CAPACITY v (last_index 0 v.size) ArrayUtilsErrors.OutOfBoundsAccessError
        = Except.ok () := by
  have h1 := last_index_zero_lt v.size h
  unfold ASSERT_MIN_SIZE_CAPACITY
  rw [to_ulong_zero, if_neg (by omega), if_neg (by omega)]
  exact ⟨rfl, rfl⟩

/-- The first range check fails on an empty vector. -/
theorem assert_empty (v : Vector) (h : v.size = 0) :
    ASSERT_MIN_SIZE_CAPACITY v (to_ulong 0) ArrayUtilsErrors.OutOfBoundsAccessError
      = Except.error ArrayUtilsErrors.OutOfBoundsAccessError := by
  unfold ASSERT_MIN_SIZE_CAPACITY
  rw [to_ulong_zero, if_pos (by omega)]
  rfl

theorem count_matches_ok (v : Vector) (val : List Nat) (h : 0 < v.size)
    (hint : v.size < 2 ^ 31) :
    count_matches v val = Except.ok (count_match_loop v val 0 (List.range' 0 v.size)) := by
  obtain ⟨h1, h2⟩ := assert_whole v h
  unfold count_matches count_match_from_index
  rw [h1, h2, loop_indices_zero _ hint]
  rfl

theorem count_matches_error (v : Vector) (val : List Nat) (h : v.size = 0) :
    count_matches v val = Except.error ArrayUtilsErrors.OutOfBoundsAccessError := by
  unfold count_matches count_match_from_index
  rw [assert_empty v h]
  rfl

theorem any_match_ok (v : Vector) (val : List Nat) (h : 0 < v.size)
    (hint : v.size < 2 ^ 31) :
    any_match v val = Except.ok (any_match_loop v val (List.range' 0 v.size)) := by
  obtain ⟨h1, h2⟩ := assert_whole v h
  unfold any_match any_match_from_index
  rw [h1, h2, loop_indices_zero _ hint]
  rfl

theorem count_match_loop_all (v : Vector) (val : List Nat) (hval : val.length = v.objsize)
    (is : List Nat) (hall : ∀ i ∈ is, elem v i = val)
    (hb : ∀ i ∈ is, v.objsize * i < UINT_RANGE) (count : Int) (h0 : 0 ≤ count)
    (hcount : count + (is.length : Int) < 2 ^ 31) :
    count_match_loop v val count is = count + (is.length : Int) := by
  induction is generalizing count with
  | nil => simp [count_match_loop]
  | cons i rest ih =>
    have hlen : ((i :: rest).length : Int) = (rest.length : Int) + 1 := by
      simp only [List.length_cons]
      push_cast
      rfl
    rw [hlen] at hcount
    have hi : memcmp v.data (uint_mul i v.objsize) val 0 v.objsize = 0 :=
      (memcmp_elem v val i hval (hb i (List.mem_cons_self i rest))).2
        (hall i (List.mem_cons_self i rest))
    have hrest := ih (fun j hj => hall j (List.mem_cons_of_mem i hj))
      (fun j hj => hb j (List.mem_cons_of_mem i hj)) (count + 1) (by omega) (by omega)
    unfold count_match_loop at hrest ⊢
    rw [List.foldl_cons, if_pos hi, int_wrap_of_lt (count + 1) (by omega) (by omega), hrest,
      hlen]
    omega

theorem any_match_loop_none (v : Vector) (val : List Nat) (hval : val.length = v.objsize)
    (is : List Nat) (hall : ∀ i ∈ is, elem v i ≠ val)
    (hb : ∀ i ∈ is, v.objsize * i < UINT_RANGE) :
    any_match_loop v val is = (0, -1) := by
  induction is with
  | nil => rfl
  | cons i rest ih =>
    have hi : ¬ memcmp v.data (uint_mul i v.objsize) val 0 v.objsize = 0 :=
      fun h => hall i (List.mem_cons_self i rest)
        ((memcmp_elem v val i hval (hb i (List.mem_cons_self i rest))).1 h)
    unfold any_match_loop
    rw [if_neg hi]
    exact ih (fun j hj => hall j (List.mem_cons_of_mem i hj))
      (fun j hj => hb j (List.mem_cons_of_mem i hj))

theorem any_match_loop_first (v : Vector) (val : List Nat) (hval : val.length = v.objsize)
    (pre : List Nat) (i : Nat) (post : List Nat) (hpre : ∀ j ∈ pre, elem v j ≠ val)
    (hi : elem v i = val) (hb : ∀ j ∈ pre, v.objsize * j < UINT_RANGE)
    (hbi : v.objsize * i < UINT_RANGE) :
    any_match_loop v val (pre ++ i :: post) = (1, (i : Int)) := by
  induction pre with
  | nil =>
    have h : memcmp v.data (uint_mul i v.objsize) val 0 v.objsize = 0 :=
      (memcmp_elem v val i hval hbi).2 hi
    simp only [List.nil_append]
    unfold any_match_loop
    rw [if_pos h]
  | cons j rest ih =>
    have hj : ¬ memcmp v.data (uint_mul j v.objsize) val 0 v.objsize = 0 :=
      fun h => hpre j (List.mem_cons_self j rest)
        ((memcmp_elem v val j hval (hb j (List.mem_cons_self j rest))).1 h)
    simp only [List.cons_append]
    unfold any_match_loop
    rw [if_neg hj]
    exact ih (fun k hk => hpre k (List.mem_cons_of_mem j hk))
      (fun k hk => hb k (List.mem_cons_of_mem j hk))

/-- The indices `0, ..., n - 1` split at `i`. -/
theorem range_split (n i : Nat) (h : i < n) :
    List.range' 0 n = List.range' 0 i ++ i :: List.range' (i + 1) (n - i - 1) := by
  have h1 : n = (n - i - 1 + 1) + i := by omega
  conv => lhs; rw [h1]
  rw [← List.range'_append_1, List.range'_succ]
  simp

/-! ## fill -/

theorem fill_grow_some (f nobj : Nat) (hf : 2 ≤ f) :
    ∀ (fuel : Nat) (v : Vector), 1 ≤ v.capacity → v.capacity * v.objsize ≤ v.data.length →
      nobj ≤ v.capacity + fuel →
      ∃ v2, fill_grow f nobj (fuel + 1) v = some v2 ∧ v2.objsize = v.objsize ∧
        nobj ≤ v2.capacity ∧ v2.capacity * v2.objsize ≤ v2.data.length := by
  intro fuel
  induction fuel with
  | zero =>
    intro v _ h2 h3
    unfold fill_grow
    rw [if_neg (by omega)]
    exact ⟨v, rfl, rfl, by omega, h2⟩
  | succ fuel ih =>
    intro v h1 h2 h3
    have hmul : v.capacity * 2 ≤ v.capacity * f := Nat.mul_le_mul_left _ hf
    unfold fill_grow
    by_cases hc : v.capacity < nobj
    · rw [if_pos hc]
      exact ih _ (show 1 ≤ v.capacity * f by omega)
        (show v.capacity * f * v.objsize ≤
            (safe_realloc v.data (v.capacity * f * v.objsize)).length by
          simp [safe_realloc])
        (show nobj ≤ v.capacity * f + fuel by omega)
    · rw [if_neg hc]
      exact ⟨v, rfl, rfl, by omega, h2⟩

theorem fill_some (fuel f : Nat) (v : Vector) (val : List Nat) (n : Nat) (hf : 2 ≤ f)
    (hcap : 1 ≤ v.capacity) (hbuf : v.capacity * v.objsize ≤ v.data.length)
    (hval : val.length = v.objsize) (hfuel : n < fuel)
    (hbytes : v.objsize * n ≤ UINT_RANGE) :
    ∃ v2, fill fuel f v val n = some v2 ∧ v2.size = n ∧ v2.objsize = v.objsize ∧
      ∀ j, j < n → elem v2 j = val := by
  obtain ⟨fuel2, rfl⟩ : ∃ k, fuel = k + 1 := ⟨fuel - 1, by omega⟩
  obtain ⟨v1, g1, g2, g3, g4⟩ := fill_grow_some f n hf fuel2 v hcap hbuf (by omega)
  refine ⟨{ v1 with
      data := (List.range n).foldl
        (fun data i => memcpy data (uint_mul v1.objsize i) val 0 v1.objsize) v1.data
      size := n }, ?_, rfl, g2, ?_⟩
  · simp only [fill, g1, Option.bind_eq_bind, Option.some_bind]
    rfl
  intro j hj
  have h := (foldl_store_slots v1.objsize (fun _ => mem_read val 0 v1.objsize)
    (fun _ => by simp) v1.data n).2 j hj
    (by have := slot_le v1.objsize j v1.capacity (by omega); omega)
  rw [g2, mem_read_self val _ hval] at h
  unfold elem
  simp only [memcpy, g2, mem_read_self val _ hval]
  rw [List.foldl_ext _ (fun acc j => mem_write acc (v.objsize * j) val)]
  · exact h
  · intro acc i hi
    rw [List.mem_range] at hi
    rw [uint_mul_of_lt _ _ (slot_lt_uint v.objsize i n hi hbytes)]

/-! ## pop, delete and replace_range: when they fail -/

theorem pop_error (v : Vector) (h : v.size = 0) :
    pop v = Except.error ArrayUtilsErrors.EmptyPopError := by
  simp [pop, ASSERT_MIN_SIZE_CAPACITY, handle_err, h, bind, Except.bind]

theorem pop_noret_ok (v : Vector) (h : 0 < v.size) :
    pop_noret v = Except.ok { v with size := v.size - 1 } := by
  have h1 : ¬ v.size = 0 := by omega
  simp [pop_noret, ASSERT_MIN_SIZE_CAPACITY, h1, bind, Except.bind, pure, Except.pure]

theorem pop_noret_error (v : Vector) (h : v.size = 0) :
    pop_noret v = Except.error ArrayUtilsErrors.EmptyPopError := by
  simp [pop_noret, ASSERT_MIN_SIZE_CAPACITY, handle_err, h, bind, Except.bind]

theorem delete_error (v : Vector) (i : Nat) (h : v.size ≤ i) :
    delete v i = Except.error ArrayUtilsErrors.OutOfBoundsAccessError := by
  have h1 : i ≥ v.size := h
  simp [delete, ASSERT_MIN_SIZE_CAPACITY, handle_err, h1, bind, Except.bind]

theorem delete_noret_error (v : Vector) (i : Nat) (h : v.size ≤ i) :
    delete_noret v i = Except.error ArrayUtilsErrors.OutOfBoundsAccessError := by
  have h1 : i ≥ v.size := h
  simp [delete_noret, ASSERT_MIN_SIZE_CAPACITY, handle_err, h1, bind, Except.bind]

theorem replace_range_copy_ok (v : Vector) (objs : List Nat) (nobj at_ : Nat)
    (h : nobj ≤ v.size) :
    replace_range_copy v objs nobj at_ = Except.ok
      { v with
        data := memcpy v.data (uint_mul v.objsize at_) objs 0 (uint_mul v.objsize nobj) } := by
  have h1 : ¬ nobj > v.size := by omega
  simp [replace_range_copy, h1, bind, Except.bind, pure, Except.pure]

theorem replace_range_copy_error (v : Vector) (objs : List Nat) (nobj at_ : Nat)
    (h : v.size < nobj) :
    replace_range_copy v objs nobj at_ =
      Except.error ArrayUtilsErrors.ReplaceMoreThanCurrentSizeError := by
  have h1 : nobj > v.size := h
  simp [replace_range_copy, handle_err, h1, bind, Except.bind]

theorem replace_range_move_ok (v : Vector) (objs : List Nat) (nobj at_ : Nat)
    (h : nobj ≤ v.size) :
    replace_range_move v objs nobj at_ = Except.ok
      { v with
        data := memmove v.data (uint_mul v.objsize at_) objs 0 (uint_mul v.objsize nobj) } := by
  have h1 : ¬ nobj > v.size := by omega
  simp [replace_range_move, h1, bind, Except.bind, pure, Except.pure]

theorem replace_range_move_error (v : Vector) (objs : List Nat) (nobj at_ : Nat)
    (h : v.size < nobj) :
    replace_range_move v objs nobj at_ =
      Except.error ArrayUtilsErrors.ReplaceMoreThanCurrentSizeError := by
  have h1 : nobj > v.size := h
  simp [replace_range_move, handle_err, h1, bind, Except.bind]

/-! ## The growth loop of the add_range functions -/

/-- With a capacity of at least one and a resize factor of at least two, the loop
`while (size + nobj >= capacity)` ends within `size + nobj + 1` tests of its condition. It
changes neither the size nor the element size, the capacity it leaves is at least the former
one and more than `size + nobj`, the bytes of the former `capacity` elements are kept, and the
buffer holds `capacity` elements. -/
theorem add_range_grow_some (f nobj : Nat) (hf : 2 ≤ f) :
    ∀ (fuel : Nat) (v : Vector), 1 ≤ v.capacity → v.size + nobj + 1 ≤ v.capacity + fuel →
      ∃ v2, add_range_grow f nobj (fuel + 1) v = some v2 ∧ v2.size = v.size ∧
        v2.objsize = v.objsize ∧ v.size + nobj < v2.capacity ∧ v.capacity ≤ v2.capacity ∧
        (∀ a, a < v.capacity * v.objsize → byte_at v2.data a = byte_at v.data a) ∧
        (v.capacity * v.objsize ≤ v.data.length →
          v2.capacity * v2.objsize ≤ v2.data.length) := by
  intro fuel
  induction fuel with
  | zero =>
    intro v _ h2
    unfold add_range_grow
    rw [if_neg (by omega)]
    exact ⟨v, rfl, rfl, rfl, by omega, Nat.le_refl _, fun _ _ => rfl, fun h => h⟩
  | succ fuel ih =>
    intro v h1 h2
    have hmul : v.capacity * 2 ≤ v.capacity * f := Nat.mul_le_mul_left _ hf
    unfold add_range_grow
    by_cases hc : v.size + nobj ≥ v.capacity
    · rw [if_pos hc]
      obtain ⟨v2, g1, g2, g3, g4, g5, g6, g7⟩ := ih
        { v with
          data := safe_realloc v.data (v.capacity * f * v.objsize)
          capacity := v.capacity * f }
        (show 1 ≤ v.capacity * f by omega)
        (show v.size + nobj + 1 ≤ v.capacity * f + fuel by omega)
      dsimp only at g2 g3 g4 g5 g6 g7
      refine ⟨v2, g1, g2, g3, g4, ?_, ?_, ?_⟩
      · exact Nat.le_trans (by omega) g5
      · intro a ha
        have hle : v.capacity * v.objsize ≤ v.capacity * f * v.objsize :=
          Nat.mul_le_mul_right _ (by omega)
        rw [g6 a (Nat.lt_of_lt_of_le ha hle)]
        show byte_at (realloc v.data (v.capacity * f * v.objsize)) a = byte_at v.data a
        rw [byte_at_realloc, if_pos (Nat.lt_of_lt_of_le ha hle)]
      · intro _
        exact g7 (by simp [safe_realloc])
    · rw [if_neg hc]
      exact ⟨v, rfl, rfl, rfl, by omega, Nat.le_refl _, fun _ _ => rfl, fun h => h⟩

theorem byte_at_memcpy (d : List Nat) (doff : Nat) (src : List Nat) (soff n a : Nat) :
    byte_at (memcpy d doff src soff n) a =
      if a < d.length ∧ doff ≤ a ∧ a < doff + n then byte_at src (soff + (a - doff))
      else byte_at d a :=
  byte_at_memmove d doff src soff n a

@[simp] theorem length_memmove (d : List Nat) (doff : Nat) (src : List Nat) (soff n : Nat) :
    (memmove d doff src soff n).length = d.length := by
  simp [memmove]

/-- A read that lies inside the range stored by `memmove`, and inside the block, yields the
source bytes. -/
theorem mem_read_memmove_inside (d : List Nat) (doff : Nat) (src : List Nat)
    (soff n off2 m : Nat) (h1 : doff ≤ off2) (h2 : off2 + m ≤ doff + n)
    (h3 : off2 + m ≤ d.length) :
    mem_read (memmove d doff src soff n) off2 m = mem_read src (soff + (off2 - doff)) m := by
  apply mem_read_congr
  intro k hk
  rw [byte_at_memmove, if_pos (by omega)]
  congr 1
  omega

/-- A read that does not meet the range stored by `memmove` yields the former bytes. -/
theorem mem_read_memmove_disjoint (d : List Nat) (doff : Nat) (src : List Nat)
    (soff n off2 m : Nat) (h : off2 + m ≤ doff ∨ doff + n ≤ off2) :
    mem_read (memmove d doff src soff n) off2 m = mem_read d off2 m :=
  mem_read_memcpy_disjoint d doff src soff n off2 m h

/-- A read below `cap * s` is not changed by a loop that keeps the bytes below `cap * s`. -/
theorem mem_read_of_prefix (d d2 : List Nat) (s cap j : Nat) (hj : j < cap)
    (h : ∀ a, a < cap * s → byte_at d2 a = byte_at d a) :
    mem_read d2 (s * j) s = mem_read d (s * j) s := by
  apply mem_read_congr
  intro k hk
  have := slot_le s j cap hj
  exact h _ (by omega)

theorem assert_ok (V : Vector) (i : Nat) (e : ArrayUtilsErrors) (h : i < V.size) :
    ASSERT_MIN_SIZE_CAPACITY V i e = Except.ok () := by
  unfold ASSERT_MIN_SIZE_CAPACITY
  rw [if_neg (by omega)]

theorem assert_error (V : Vector) (i : Nat) (e : ArrayUtilsErrors) (h : V.size ≤ i) :
    ASSERT_MIN_SIZE_CAPACITY V i e = Except.error e := by
  unfold ASSERT_MIN_SIZE_CAPACITY
  rw [if_pos h]
  rfl

theorem add_range_move_eq (fuel f : Nat) (v v1 : Vector) (objs : List Nat) (nobj : Nat)
    (h : add_range_grow f nobj fuel v = some v1) :
    add_range_move fuel f v objs nobj = some
      { v1 with
        data := memmove v1.data (v1.size * v1.objsize) objs 0 (uint_mul v1.objsize nobj)
        size := v1.size + nobj } := by
  simp only [add_range_move, h, Option.bind_eq_bind, Option.some_bind]
  rfl

theorem add_range_copy_eq_move (fuel f : Nat) (v : Vector) (objs : List Nat) (nobj : Nat) :
    add_range_copy fuel f v objs nobj = add_range_move fuel f v objs nobj := rfl

theorem add_range_move_at_eq (fuel f : Nat) (v v1 : Vector) (objs : List Nat) (nobj at_ : Nat)
    (hat : at_ < v.size) (h : add_range_grow f nobj fuel v = some v1) :
    add_range_move_at fuel f v objs nobj at_ = some (Except.ok
      { v1 with
        data := memmove
          (memmove v1.data (uint_mul v1.objsize (at_ + nobj)) v1.data (uint_mul v1.objsize at_)
            (v1.objsize * (v1.size - at_)))
          (uint_mul v1.objsize at_) objs 0 (uint_mul v1.objsize nobj)
        size := v1.size + nobj }) := by
  simp only [add_range_move_at, assert_ok v at_ _ hat, h, Option.bind_eq_bind,
    Option.some_bind]
  rfl

theorem add_range_copy_at_eq_move_at (fuel f : Nat) (v : Vector) (objs : List Nat)
    (nobj at_ : Nat) :
    add_range_copy_at fuel f v objs nobj at_ = add_range_move_at fuel f v objs nobj at_ := rfl

theorem add_range_move_at_error (fuel f : Nat) (v : Vector) (objs : List Nat) (nobj at_ : Nat)
    (hat : v.size ≤ at_) :
    add_range_move_at fuel f v objs nobj at_ =
      some (Except.error ArrayUtilsErrors.OutOfBoundsAccessError) := by
  simp only [add_range_move_at, assert_error v at_ _ hat]

/-! ## The error channel with a handler installed -/

theorem ulong_decr_zero : ulong_decr 0 = ULONG_RANGE - 1 := by
  unfold ulong_decr ULONG_RANGE
  omega

theorem ulong_decr_pos (size : Nat) (h1 : 0 < size) (h2 : size < ULONG_RANGE) :
    ulong_decr size = size - 1 := by
  unfold ulong_decr
  unfold ULONG_RANGE at h2 ⊢
  omega

/-- With no handler installed `pop_noret_mode` is `pop_noret`, for a size that an
`unsigned long` holds. -/
theorem pop_noret_mode_direct (v : Vector) (h : v.size < ULONG_RANGE) :
    pop_noret_mode false v = (pop_noret v).map (fun v2 => ([], v2)) := by
  by_cases h0 : v.size = 0
  · rw [pop_noret_error v h0]
    simp [pop_noret_mode, ASSERT_MIN_SIZE_CAPACITY_mode, handle_err_mode, h0, bind, Except.bind,
      Except.map]
  · rw [pop_noret_ok v (by omega)]
    simp [pop_noret_mode, ASSERT_MIN_SIZE_CAPACITY_mode, h0, bind, Except.bind, pure,
      Except.pure, Except.map, ulong_decr_pos v.size (by omega) h]

theorem pop_noret_mode_delegated_empty (v : Vector) (h : v.size = 0) :
    pop_noret_mode true v =
      Except.ok ([ArrayUtilsErrors.EmptyPopError], { v with size := ULONG_RANGE - 1 }) := by
  simp [pop_noret_mode, ASSERT_MIN_SIZE_CAPACITY_mode, handle_err_mode, h, bind, Except.bind,
    pure, Except.pure, ulong_decr_zero]

theorem pop_mode_delegated_empty (v : Vector) (h : v.size = 0) :
    pop_mode true v =
      Except.ok ([ArrayUtilsErrors.EmptyPopError],
        mem_read v.data (v.objsize * (ULONG_RANGE - 1)) v.objsize,
        { v with size := ULONG_RANGE - 1 }) := by
  simp [pop_mode, ASSERT_MIN_SIZE_CAPACITY_mode, handle_err_mode, h, bind, Except.bind,
    pure, Except.pure, ulong_decr_zero, memcpy_malloc]

theorem pop_mode_direct_empty (v : Vector) (h : v.size = 0) :
    pop_mode false v = Except.error ArrayUtilsErrors.EmptyPopError ∧
      pop_noret_mode false v = Except.error ArrayUtilsErrors.EmptyPopError := by
  constructor <;>
  simp [pop_mode, pop_noret_mode, ASSERT_MIN_SIZE_CAPACITY_mode, handle_err_mode, h, bind,
    Except.bind]

/-! ## The registry -/

theorem take_succ_set (l : List Nat) (k p : Nat) (h : k < l.length) :
    (l.set k p).take (k + 1) = l.take k ++ [p] := by
  induction l generalizing k with
  | nil => simp at h
  | cons x xs ih =>
    cases k with
    | zero => simp
    | succ k =>
      have hk : k < xs.length := by simpa using h
      simp [ih k hk]

theorem take_realloc (l : List Nat) (m k : Nat) (h1 : k ≤ l.length) (h2 : k ≤ m) :
    (realloc l m).take k = l.take k := by
  unfold realloc
  rw [List.take_append_of_le_length (by simp; omega), List.take_take]
  congr 1
  omega

/-- The first call of `vector`: the block of pointers is allocated. -/
theorem vector_first (f : Nat) (reg : AllocatedArrays) (p : Nat) (h0 : reg.nvectors = 0)
    (hc : 1 ≤ reg.capacity) :
    vector f reg p =
      { vectors := (safe_alloc reg.capacity).set 0 p, nvectors := 1, capacity := reg.capacity } := by
  have h1 : ¬ (0 + 1 > reg.capacity) := by omega
  simp [vector, h0, h1]

/-- A later call of `vector` with the block full: the capacity is multiplied. -/
theorem vector_grow (f : Nat) (reg : AllocatedArrays) (p : Nat) (h0 : 0 < reg.nvectors)
    (hc : reg.nvectors + 1 > reg.capacity) :
    vector f reg p =
      { vectors := (safe_realloc reg.vectors (reg.capacity * f)).set reg.nvectors p
        nvectors := reg.nvectors + 1
        capacity := reg.capacity * f } := by
  have h1 : ¬ reg.nvectors = 0 := by omega
  simp [vector, h1, hc]

/-- A later call of `vector` with room in the block. -/
theorem vector_room (f : Nat) (reg : AllocatedArrays) (p : Nat) (h0 : 0 < reg.nvectors)
    (hc : reg.nvectors + 1 ≤ reg.capacity) :
    vector f reg p =
      { vectors := reg.vectors.set reg.nvectors p
        nvectors := reg.nvectors + 1
        capacity := reg.capacity } := by
  have h1 : ¬ reg.nvectors = 0 := by omega
  have h2 : ¬ (reg.nvectors + 1 > reg.capacity) := by omega
  simp [vector, h1, h2]

/-- What holds of the registry after the vectors `ptrs` have been created. -/
theorem registry_invariant (ptrs : List Nat) :
    (ptrs.foldl (vector 2) allocatedArrays).nvectors = ptrs.length ∧
    (ptrs.foldl (vector 2) allocatedArrays).nvectors ≤
      (ptrs.foldl (vector 2) allocatedArrays).capacity ∧
    (∃ j, (ptrs.foldl (vector 2) allocatedArrays).capacity = 2 ^ j) ∧
    (0 < ptrs.length →
      (ptrs.foldl (vector 2) allocatedArrays).vectors.length =
        (ptrs.foldl (vector 2) allocatedArrays).capacity) ∧
    (ptrs.foldl (vector 2) allocatedArrays).vectors.take ptrs.length = ptrs := by
  induction ptrs using List.reverseRecOn with
  | nil => exact ⟨rfl, by decide, ⟨0, rfl⟩, fun h => absurd h (by decide), rfl⟩
  | append_singleton ps p ih =>
    obtain ⟨i1, i2, ⟨j, i3⟩, i4, i5⟩ := ih
    rw [List.foldl_append, List.foldl_cons, List.foldl_nil, List.length_append,
      List.length_singleton]
    generalize ps.foldl (vector 2) allocatedArrays = reg at i1 i2 i3 i4 i5
    have hpow : 1 ≤ reg.capacity := by rw [i3]; exact Nat.one_le_two_pow
    by_cases h0 : ps.length = 0
    · have hn : reg.nvectors = 0 := by omega
      have hps : ps = [] := List.eq_nil_of_length_eq_zero h0
      rw [vector_first 2 reg p hn hpow]
      subst hps
      refine ⟨rfl, hpow, ⟨j, i3⟩, fun _ => by simp [safe_alloc, malloc], ?_⟩
      have hlen : 0 < (safe_alloc reg.capacity).length := by simp [safe_alloc, malloc]; omega
      simpa using take_succ_set (safe_alloc reg.capacity) 0 p hlen
    · have hn : 0 < reg.nvectors := by omega
      have hlen : reg.vectors.length = reg.capacity := i4 (by omega)
      by_cases hfull : reg.nvectors + 1 > reg.capacity
      · rw [vector_grow 2 reg p hn hfull]
        refine ⟨by simp [i1], by simp only; omega, ⟨j + 1, by simp only; rw [i3, Nat.pow_succ]⟩,
          fun _ => by simp [safe_realloc], ?_⟩
        simp only
        rw [← i1, take_succ_set _ _ _ (by simp [safe_realloc]; omega), safe_realloc,
          take_realloc _ _ _ (by omega) (by omega), i1, i5]
      · rw [vector_room 2 reg p hn (by omega)]
        refine ⟨by simp [i1], by simp only; omega, ⟨j, i3⟩, fun _ => by simp [hlen], ?_⟩
        simp only
        rw [← i1, take_succ_set _ _ _ (by omega), i1, i5]

/-! ## The invariant of size and capacity -/

/-- The growth loop of `fill` ends within `nobj + 1` tests and leaves a capacity of at least
`nobj` and at least one; no assumption is made on the buffer. -/
theorem fill_grow_capacity (f nobj : Nat) (hf : 2 ≤ f) :
    ∀ (fuel : Nat) (v : Vector), 1 ≤ v.capacity → nobj ≤ v.capacity + fuel →
      ∃ v2, fill_grow f nobj (fuel + 1) v = some v2 ∧ nobj ≤ v2.capacity ∧
        1 ≤ v2.capacity := by
  intro fuel
  induction fuel with
  | zero =>
    intro v h1 h2
    unfold fill_grow
    rw [if_neg (by omega)]
    exact ⟨v, rfl, by omega, h1⟩
  | succ fuel ih =>
    intro v h1 h2
    have hmul : v.capacity * 2 ≤ v.capacity * f := Nat.mul_le_mul_left _ hf
    unfold fill_grow
    by_cases hc : v.capacity < nobj
    · rw [if_pos hc]
      exact ih _ (show 1 ≤ v.capacity * f by omega)
        (show nobj ≤ v.capacity * f + fuel by omega)
    · rw [if_neg hc]
      exact ⟨v, rfl, by omega, h1⟩

theorem fill_eq (fuel f : Nat) (v v1 : Vector) (val : List Nat) (nobj : Nat)
    (h : fill_grow f nobj fuel v = some v1) :
    fill fuel f v val nobj = some
      { v1 with
        data := (List.range nobj).foldl
          (fun data i => memcpy data (uint_mul v1.objsize i) val 0 v1.objsize) v1.data
        size := nobj } := by
  simp only [fill, h, Option.bind_eq_bind, Option.some_bind]
  rfl

/-! ## The byte ranges of delete -/

/-- The ranges of `delete_noret` are those of the move that the embedding makes. -/
theorem delete_noret_moves_ranges (v : Vector) (i : Nat) (h : i < v.size) :
    delete_noret_reads v i =
      [byte_range (uint_mul v.objsize (i + 1)) (v.objsize * (v.size - i))] ∧
    delete_noret_writes v i = [byte_range (uint_mul v.objsize i) (v.objsize * (v.size - i))] ∧
    delete_noret v i = Except.ok
      { v with
        data := mem_write v.data (byte_range (uint_mul v.objsize i) (v.objsize * (v.size - i))).lo
          (mem_read v.data
            (byte_range (uint_mul v.objsize (i + 1)) (v.objsize * (v.size - i))).lo
            (v.objsize * (v.size - i)))
        size := v.size - 1 } :=
  ⟨rfl, rfl, delete_noret_ok v i h⟩

/-- Below a full buffer, every range that `delete` and `delete_noret` read or store to lies
in the buffer, when the offsets fit in 32 bits. -/
theorem delete_ranges_in_buffer_of_lt (v : Vector) (i : Nat) (hi : i < v.size)
    (hlt : v.size < v.capacity) (hoff : v.objsize * (i + 1) < UINT_RANGE) :
    (∀ r ∈ delete_reads v i, in_buffer v r) ∧ (∀ r ∈ delete_writes v i, in_buffer v r) ∧
    (∀ r ∈ delete_noret_reads v i, in_buffer v r) ∧
    (∀ r ∈ delete_noret_writes v i, in_buffer v r) := by
  have u1 := uint_mul_of_lt _ _ hoff
  have u2 := uint_mul_of_lt _ _ (mul_lt_of_le v.objsize i (i + 1) (by omega) hoff)
  have e1 : v.objsize * (i + 1) = v.objsize * i + v.objsize := Nat.mul_succ _ _
  have e2 : v.objsize * i + v.objsize * (v.size - i) = v.objsize * v.size := by
    rw [← Nat.mul_add]; congr 1; omega
  have e3 := slot_le v.objsize v.size v.capacity hlt
  have e4 := slot_le v.objsize i v.capacity (by omega)
  refine ⟨?_, ?_, ?_, ?_⟩ <;>
  · intro r hr
    simp only [delete_reads, delete_writes, delete_noret_reads, delete_noret_writes,
      List.mem_cons, List.mem_singleton, List.not_mem_nil, or_false, u1, u2] at hr
    right
    rcases hr with rfl | rfl <;> simp only [byte_range] <;> omega

/-- On a full buffer of elements that are not empty, the source of the `memmove` of `delete`
and `delete_noret` ends one element past the buffer, when the offsets fit in 32 bits. -/
theorem delete_reads_past_full_buffer (v : Vector) (i : Nat) (hi : i < v.size)
    (hfull : v.size = v.capacity) (hobj : 0 < v.objsize)
    (hoff : v.objsize * (i + 1) < UINT_RANGE) :
    ¬ in_buffer v (byte_range (uint_mul v.objsize (i + 1)) (v.objsize * (v.size - i))) ∧
    (byte_range (uint_mul v.objsize (i + 1)) (v.objsize * (v.size - i))).hi =
      v.capacity * v.objsize + v.objsize := by
  rw [uint_mul_of_lt _ _ hoff]
  have e1 : v.objsize * (i + 1) = v.objsize * i + v.objsize := Nat.mul_succ _ _
  have e2 : v.objsize * i + v.objsize * (v.size - i) = v.objsize * v.size := by
    rw [← Nat.mul_add]; congr 1; omega
  have e3 : v.objsize * v.size = v.capacity * v.objsize := by rw [hfull, Nat.mul_comm]
  have e4 : v.objsize * 1 ≤ v.objsize * (v.size - i) := Nat.mul_le_mul_left _ (by omega)
  simp only [in_buffer, byte_range]
  constructor
  · omega
  · omega

/-! ## The capacity after growth -/

theorem foldl_add_size (f : Nat) (objs : List (List Nat)) :
    ∀ v0 : Vector, (objs.foldl (add f) v0).size = v0.size + objs.length := by
  induction objs with
  | nil => intro v0; rfl
  | cons o os ih =>
    intro v0
    rw [List.foldl_cons, ih, add_size, List.length_cons]
    omega

/-- One `add` with resize factor 2 keeps: the capacity is the least power of two that is at
least the size. -/
theorem add_least_power (v : Vector) (obj : List Nat) (j : Nat) (h1 : v.capacity = 2 ^ j)
    (h2 : v.size ≤ 2 ^ j) (h3 : ∀ i, v.size ≤ 2 ^ i → j ≤ i) :
    ∃ j2, (add 2 v obj).capacity = 2 ^ j2 ∧ (add 2 v obj).size ≤ 2 ^ j2 ∧
      ∀ i, (add 2 v obj).size ≤ 2 ^ i → j2 ≤ i := by
  rw [add_capacity, add_size]
  have hpos : 0 < 2 ^ j := Nat.one_le_two_pow
  by_cases hfull : v.size = v.capacity
  · rw [if_pos hfull]
    refine ⟨j + 1, by rw [h1, Nat.pow_succ], by rw [hfull, h1, Nat.pow_succ]; omega, ?_⟩
    intro i hi
    have hlt : 2 ^ j < 2 ^ i := by rw [hfull, h1] at hi; omega
    have := (Nat.pow_lt_pow_iff_right (by decide : 1 < 2)).1 hlt
    omega
  · rw [if_neg hfull]
    refine ⟨j, h1, by rw [h1] at hfull; omega, ?_⟩
    intro i hi
    exact h3 i (by omega)

theorem foldl_add_least_power (objs : List (List Nat)) :
    ∀ (v0 : Vector) (j : Nat), v0.capacity = 2 ^ j → v0.size ≤ 2 ^ j →
      (∀ i, v0.size ≤ 2 ^ i → j ≤ i) →
      ∃ j2, (objs.foldl (add 2) v0).capacity = 2 ^ j2 ∧
        (objs.foldl (add 2) v0).size ≤ 2 ^ j2 ∧
        ∀ i, (objs.foldl (add 2) v0).size ≤ 2 ^ i → j2 ≤ i := by
  induction objs with
  | nil => intro v0 j h1 h2 h3; exact ⟨j, h1, h2, h3⟩
  | cons o os ih =>
    intro v0 j h1 h2 h3
    obtain ⟨j1, g1, g2, g3⟩ := add_least_power v0 o j h1 h2 h3
    exact ih (add 2 v0 o) j1 g1 g2 g3

/-- The loop `while (size + nobj >= capacity)` multiplies the capacity `k` times, for the
least `k` with `size + nobj < capacity * f ^ k`. -/
theorem add_range_grow_least (f nobj : Nat) (hf : 2 ≤ f) :
    ∀ (fuel : Nat) (v : Vector), 1 ≤ v.capacity → v.size + nobj + 1 ≤ v.capacity + fuel →
      ∃ k v2, add_range_grow f nobj (fuel + 1) v = some v2 ∧ v2.size = v.size ∧
        v2.capacity = v.capacity * f ^ k ∧ v.size + nobj < v.capacity * f ^ k ∧
        ∀ m, m < k → v.capacity * f ^ m ≤ v.size + nobj := by
  intro fuel
  induction fuel with
  | zero =>
    intro v _ h2
    unfold add_range_grow
    rw [if_neg (by omega)]
    exact ⟨0, v, rfl, rfl, by simp, by simp; omega, fun m hm => absurd hm (Nat.not_lt_zero m)⟩
  | succ fuel ih =>
    intro v h1 h2
    have hmul : v.capacity * 2 ≤ v.capacity * f := Nat.mul_le_mul_left _ hf
    unfold add_range_grow
    by_cases hc : v.size + nobj ≥ v.capacity
    · rw [if_pos hc]
      obtain ⟨k, v2, g1, g2, g3, g4, g5⟩ := ih
        { v with
          data := safe_realloc v.data (v.capacity * f * v.objsize)
          capacity := v.capacity * f }
        (show 1 ≤ v.capacity * f by omega)
        (show v.size + nobj + 1 ≤ v.capacity * f + fuel by omega)
      dsimp only at g2 g3 g4 g5
      have hpow : ∀ m, v.capacity * f * f ^ m = v.capacity * f ^ (m + 1) := by
        intro m
        rw [Nat.pow_succ, Nat.mul_assoc, Nat.mul_comm f (f ^ m)]
      refine ⟨k + 1, v2, g1, g2, by rw [g3, hpow], by rw [← hpow]; exact g4, ?_⟩
      intro m hm
      cases m with
      | zero => simpa using hc
      | succ m =>
        rw [← hpow]
        exact g5 m (by omega)
    · rw [if_neg hc]
      exact ⟨0, v, rfl, rfl, by simp, by simp; omega, fun m hm => absurd hm (Nat.not_lt_zero m)⟩

/-- The loop `while (capacity < nobj)` of `fill` multiplies the capacity `k` times, for the
least `k` with `nobj <= capacity * f ^ k`. -/
theorem fill_grow_least (f nobj : Nat) (hf : 2 ≤ f) :
    ∀ (fuel : Nat) (v : Vector), 1 ≤ v.capacity → nobj ≤ v.capacity + fuel →
      ∃ k v2, fill_grow f nobj (fuel + 1) v = some v2 ∧
        v2.capacity = v.capacity * f ^ k ∧ nobj ≤ v.capacity * f ^ k ∧
        ∀ m, m < k → v.capacity * f ^ m < nobj := by
  intro fuel
  induction fuel with
  | zero =>
    intro v _ h2
    unfold fill_grow
    rw [if_neg (by omega)]
    exact ⟨0, v, rfl, by simp, by simp; omega, fun m hm => absurd hm (Nat.not_lt_zero m)⟩
  | succ fuel ih =>
    intro v h1 h2
    have hmul : v.capacity * 2 ≤ v.capacity * f := Nat.mul_le_mul_left _ hf
    unfold fill_grow
    by_cases hc : v.capacity < nobj
    · rw [if_pos hc]
      obtain ⟨k, v2, g1, g3, g4, g5⟩ := ih
        { v with
          data := safe_realloc v.data (v.capacity * f * v.objsize)
          capacity := v.capacity * f }
        (show 1 ≤ v.capacity * f by omega)
        (show nobj ≤ v.capacity * f + fuel by omega)
      dsimp only at g3 g4 g5
      have hpow : ∀ m, v.capacity * f * f ^ m = v.capacity * f ^ (m + 1) := by
        intro m
        rw [Nat.pow_succ, Nat.mul_assoc, Nat.mul_comm f (f ^ m)]
      refine ⟨k + 1, v2, g1, by rw [g3, hpow], by rw [← hpow]; exact g4, ?_⟩
      intro m hm
      cases m with
      | zero => simpa using hc
      | succ m =>
        rw [← hpow]
        exact g5 m (by omega)
    · rw [if_neg hc]
      exact ⟨0, v, rfl, by simp, by simp; omega, fun m hm => absurd hm (Nat.not_lt_zero m)⟩

/-! ## Bytes of blocks given by replicate and append -/

theorem byte_at_replicate_of_lt (n a x : Nat) (h : a < n) :
    byte_at (List.replicate n x) a = x := by
  simp [byte_at, List.getElem?_replicate, h]

theorem byte_at_append_left (l r : List Nat) (a : Nat) (h : a < l.length) :
    byte_at (l ++ r) a = byte_at l a := by
  simp [byte_at, List.getElem?_append_left h]

theorem byte_at_append_right (l r : List Nat) (a : Nat) (h : l.length ≤ a) :
    byte_at (l ++ r) a = byte_at r (a - l.length) := by
  simp [byte_at, List.getElem?_append_right h]

/-- When `(int)size` is not positive the loop of `reverse` does not run: the new buffer is
the fresh one. -/
theorem reverse_of_not_pos (v : Vector) (h : (to_int v.size).toNat = 0) :
    reverse v = { v with data := List.replicate (v.objsize * v.capacity) 0 } := by
  unfold reverse
  simp only [h, List.range_zero, List.foldl_nil]
  rfl

/-- Bytes of a buffer made of a run of `x`, a run of `y` and a rest. -/
theorem byte_at_runs (n m x y : Nat) (r : List Nat) (a : Nat) :
    (a < n → byte_at (List.replicate n x ++ List.replicate m y ++ r) a = x) ∧
    (n ≤ a → a < n + m → byte_at (List.replicate n x ++ List.replicate m y ++ r) a = y) := by
  have hl : (List.replicate n x ++ List.replicate m y).length = n + m := by
    rw [List.length_append, List.length_replicate, List.length_replicate]
  have hl0 : (List.replicate n x).length = n := List.length_replicate _ _
  constructor
  · intro h
    rw [byte_at_append_left _ _ a (by rw [hl]; omega),
      byte_at_append_left _ _ a (by rw [hl0]; exact h), byte_at_replicate_of_lt _ _ _ h]
  · intro h1 h2
    rw [byte_at_append_left _ _ a (by rw [hl]; exact h2),
      byte_at_append_right _ _ a (by rw [hl0]; exact h1), hl0,
      byte_at_replicate_of_lt _ _ _ (by omega)]

/-- The loop of `any_match_from_index` finds nothing when no comparison at the offsets it
computes succeeds. -/
theorem any_match_loop_none_reads (v : Vector) (val : List Nat) (hval : val.length = v.objsize)
    (is : List Nat)
    (hall : ∀ i ∈ is, mem_read v.data (uint_mul i v.objsize) v.objsize ≠ val) :
    any_match_loop v val is = (0, -1) := by
  induction is with
  | nil => rfl
  | cons i rest ih =>
    have hi : ¬ memcmp v.data (uint_mul i v.objsize) val 0 v.objsize = 0 := by
      intro h
      unfold memcmp at h
      rw [mem_read_self val _ hval] at h
      exact hall i (List.mem_cons_self i rest)
        ((memcmp_bytes_eq_zero _ _ (by rw [length_mem_read, hval])).1 h)
    unfold any_match_loop
    rw [if_neg hi]
    exact ih (fun j hj => hall j (List.mem_cons_of_mem i hj))

/-- What `extract_match` returns, from what `any_match` returns. -/
theorem extract_match_of_any (v : Vector) (val : List Nat) (r : Int × Int)
    (h : any_match v val = Except.ok r) :
    extract_match v val =
      Except.ok (if r.1 ≠ 0 then some (uint_mul r.2.toNat v.objsize) else none) := by
  unfold extract_match
  rw [h]
  by_cases h0 : r.1 ≠ 0 <;> simp [bind, Except.bind, pure, Except.pure, h0]

/-- Two reads of at least one byte differ when their first bytes differ. -/
theorem mem_read_ne_of_byte (b b2 : List Nat) (off off2 n : Nat) (hn : 0 < n)
    (h : byte_at b off ≠ byte_at b2 off2) : mem_read b off n ≠ mem_read b2 off2 n := by
  intro heq
  have h0 := congrArg (fun l => byte_at l 0) heq
  simp only [byte_at_mem_read, hn, if_true, Nat.add_zero] at h0
  exact h h0

/-! ## Claims -/

/-- C5, as the code has it. With the count 0, `fill` leaves the size 0 and `count_matches`
does not return 0: its range check `at >= size` holds for `at = 0` and `size = 0`, and
`OutOfBoundsAccessError` is raised. -/
theorem fill_zero_then_count_matches_raises :
    fill 1 2 (vector_new 1 1) [5] 0 = some ⟨[0], 1, 0, 1⟩ ∧
      count_matches ⟨[0], 1, 0, 1⟩ [5] = Except.error ArrayUtilsErrors.OutOfBoundsAccessError ∧
      count_matches ⟨[0], 1, 0, 1⟩ [5] ≠ Except.ok 0 :=
  ⟨rfl, rfl, fun h => Except.noConfusion h⟩

/-- C5, amended. For a vector with `capacity >= 1` and a buffer of at least `capacity`
elements, with a resize factor of at least 2, for every value `val` of `objsize` bytes and
every count `n` below `2 ^ 31` with `objsize * n` at most `2 ^ 32`: `fill(val, n)` returns (its
growth loop ends within `n + 1` tests) and leaves the size `n`; `count_matches(val)` then
returns `n` when `n >= 1`, and raises `OutOfBoundsAccessError` when `n = 0`. -/
theorem fill_then_count_matches (fuel f : Nat) (v : Vector) (val : List Nat) (n : Nat)
    (hf : 2 ≤ f) (hcap : 1 ≤ v.capacity) (hbuf : v.capacity * v.objsize ≤ v.data.length)
    (hval : val.length = v.objsize) (hfuel : n < fuel) (hint : n < 2 ^ 31)
    (hbytes : v.objsize * n ≤ UINT_RANGE) :
    ∃ v2, fill fuel f v val n = some v2 ∧ v2.size = n ∧
      (1 ≤ n → count_matches v2 val = Except.ok (n : Int)) ∧
      (n = 0 → count_matches v2 val = Except.error ArrayUtilsErrors.OutOfBoundsAccessError) := by
  obtain ⟨v2, h1, h2, h3, h4⟩ := fill_some fuel f v val n hf hcap hbuf hval hfuel hbytes
  refine ⟨v2, h1, h2, ?_, ?_⟩
  · intro hn
    have hlen : ((List.range' 0 v2.size).length : Int) = (n : Int) := by
      rw [List.length_range', h2]
    rw [count_matches_ok v2 val (by omega) (by rw [h2]; exact hint),
      count_match_loop_all v2 val (by rw [h3]; exact hval) _ ?_ ?_ 0 (Int.le_refl 0)
        (by rw [hlen]; omega), hlen]
    · simp
    · intro i hi
      rw [List.mem_range'_1] at hi
      exact h4 i (by omega)
    · intro i hi
      rw [List.mem_range'_1] at hi
      rw [h3]
      exact slot_lt_uint v.objsize i n (by omega) hbytes
  · intro hn
    exact count_matches_error v2 val (by omega)

theorem fill_then_count_matches_witness :
    ∃ v2, fill 4 2 ⟨[7, 9], 2, 1, 1⟩ [1, 2] 3 = some v2 ∧ v2.size = 3 ∧
      (1 ≤ 3 → count_matches v2 [1, 2] = Except.ok ((3 : Nat) : Int)) ∧
      (3 = 0 → count_matches v2 [1, 2] =
        Except.error ArrayUtilsErrors.OutOfBoundsAccessError) :=
  fill_then_count_matches 4 2 ⟨[7, 9], 2, 1, 1⟩ [1, 2] 3 (by decide) (by decide) (by decide)
    (by decide) (by decide) (by decide) (by decide)

/-- C6, as the code has it. On the empty vector made by `vector_fromsize(4, 2)`, `any_match`
with the value 5 does not report "no match": the range check `at >= size` holds for
`at = 0` and `size = 0`, and `OutOfBoundsAccessError` is raised. -/
theorem any_match_empty_raises :
    any_match (vector_fromsize 4 2) [5, 0, 0, 0] =
        Except.error ArrayUtilsErrors.OutOfBoundsAccessError ∧
      any_match (vector_fromsize 4 2) [5, 0, 0, 0] ≠ Except.ok (0, -1) :=
  ⟨rfl, fun h => Except.noConfusion h⟩

/-- C6, amended. On every vector of size 0 and for every value, `any_match` raises
`OutOfBoundsAccessError`. -/
theorem any_match_of_size_zero (v : Vector) (val : List Nat) (h : v.size = 0) :
    any_match v val = Except.error ArrayUtilsErrors.OutOfBoundsAccessError := by
  simp [any_match, any_match_from_index, ASSERT_MIN_SIZE_CAPACITY, handle_err, to_ulong, h,
    bind, Except.bind]

theorem any_match_of_size_zero_witness :
    any_match (vector_new 1 2) [5, 0] = Except.error ArrayUtilsErrors.OutOfBoundsAccessError :=
  any_match_of_size_zero (vector_new 1 2) [5, 0] rfl

/-- C7, at a failing input. On the vector of the one-byte elements 7, 9 the call
`n_matches_from_index(value 7, at 1, size 1)` passes both range checks and returns 1, although
the only element of the range `[1, 2)`, the element at index 1, is not 7: the loop
`for (i = at; i < size; i++)` runs over `[at, size)`, here over no index at all. -/
theorem n_matches_from_index_stops_at_size :
    n_matches_from_index ⟨[7, 9], 1, 2, 2⟩ [7] 1 1 = Except.ok 1 ∧
      elem ⟨[7, 9], 1, 2, 2⟩ 1 ≠ [7] :=
  ⟨rfl, by decide⟩

/-- C8, at a failing input. On the vector of the one-byte elements 7, 9, 9 the call
`count_match_from_index(value 9, at 1, size 2)` passes both range checks and returns 1,
although both elements of the range `[1, 3)` are 9: the loop runs over `[at, size)`, here over
index 1 alone. -/
theorem count_match_from_index_stops_at_size :
    count_match_from_index ⟨[7, 9, 9], 1, 3, 3⟩ [9] 1 2 = Except.ok 1 ∧
      elem ⟨[7, 9, 9], 1, 3, 3⟩ 1 = [9] ∧ elem ⟨[7, 9, 9], 1, 3, 3⟩ 2 = [9] :=
  ⟨rfl, by decide, by decide⟩

/-- C11. `pop` and `pop_noret` fail with `EmptyPopError` if and only if `size == 0`. When
`size > 0` both succeed and leave the same vector: its size is one less, its capacity, element
size and buffer are unchanged, so that every element at an index in `[0, size - 1)` is
unchanged; `pop` returns a copy of the former last element. -/
theorem pop_contract (v : Vector) :
    (pop v = Except.error ArrayUtilsErrors.EmptyPopError ↔ v.size = 0) ∧
    (pop_noret v = Except.error ArrayUtilsErrors.EmptyPopError ↔ v.size = 0) ∧
    (0 < v.size → ∃ v2, pop v = Except.ok (elem v (v.size - 1), v2) ∧
      pop_noret v = Except.ok v2 ∧ v2.size + 1 = v.size ∧ v2.capacity = v.capacity ∧
      v2.objsize = v.objsize ∧ v2.data = v.data ∧
      ∀ j, j < v.size - 1 → elem v2 j = elem v j) := by
  refine ⟨?_, ?_, ?_⟩
  · constructor
    · intro h
      by_contra hne
      rw [pop_ok v (by omega)] at h
      exact Except.noConfusion h
    · exact pop_error v
  · constructor
    · intro h
      by_contra hne
      rw [pop_noret_ok v (by omega)] at h
      exact Except.noConfusion h
    · exact pop_noret_error v
  · intro h
    refine ⟨{ v with size := v.size - 1 }, pop_ok v h, pop_noret_ok v h, ?_, rfl, rfl, rfl,
      fun j _ => rfl⟩
    show v.size - 1 + 1 = v.size
    omega

theorem pop_contract_witness :
    (∃ v2, pop ⟨[7, 9, 3, 4], 2, 2, 2⟩ = Except.ok (elem ⟨[7, 9, 3, 4], 2, 2, 2⟩ (2 - 1), v2) ∧
      pop_noret ⟨[7, 9, 3, 4], 2, 2, 2⟩ = Except.ok v2 ∧ v2.size + 1 = 2 ∧ v2.capacity = 2 ∧
      v2.objsize = 2 ∧ v2.data = [7, 9, 3, 4] ∧
      ∀ j, j < 2 - 1 → elem v2 j = elem ⟨[7, 9, 3, 4], 2, 2, 2⟩ j) ∧
    pop (vector_new 1 4) = Except.error ArrayUtilsErrors.EmptyPopError :=
  ⟨(pop_contract ⟨[7, 9, 3, 4], 2, 2, 2⟩).2.2 (by decide),
    (pop_contract (vector_new 1 4)).1.2 rfl⟩

/-- C12. `delete(index)` and `delete_noret(index)` fail with `OutOfBoundsAccessError` if and
only if `index >= size`; on a vector of size 0 they fail for every index, 0 included. -/
theorem delete_fails_iff (v : Vector) (index : Nat) :
    (delete v index = Except.error ArrayUtilsErrors.OutOfBoundsAccessError ↔
      index ≥ v.size) ∧
    (delete_noret v index = Except.error ArrayUtilsErrors.OutOfBoundsAccessError ↔
      index ≥ v.size) ∧
    (v.size = 0 →
      delete v index = Except.error ArrayUtilsErrors.OutOfBoundsAccessError ∧
      delete_noret v index = Except.error ArrayUtilsErrors.OutOfBoundsAccessError ∧
      delete v 0 = Except.error ArrayUtilsErrors.OutOfBoundsAccessError ∧
      delete_noret v 0 = Except.error ArrayUtilsErrors.OutOfBoundsAccessError) := by
  refine ⟨?_, ?_, ?_⟩
  · constructor
    · intro h
      by_contra hlt
      rw [delete_ok v index (by omega)] at h
      exact Except.noConfusion h
    · exact delete_error v index
  · constructor
    · intro h
      by_contra hlt
      rw [delete_noret_ok v index (by omega)] at h
      exact Except.noConfusion h
    · exact delete_noret_error v index
  · intro h
    exact ⟨delete_error v index (by omega), delete_noret_error v index (by omega),
      delete_error v 0 (by omega), delete_noret_error v 0 (by omega)⟩

theorem delete_fails_iff_witness :
    (delete (vector_fromsize 4 2) 0 = Except.error ArrayUtilsErrors.OutOfBoundsAccessError ∧
      delete_noret (vector_fromsize 4 2) 0 =
        Except.error ArrayUtilsErrors.OutOfBoundsAccessError) ∧
    delete ⟨[7, 9, 3, 4], 2, 2, 2⟩ 2 = Except.error ArrayUtilsErrors.OutOfBoundsAccessError :=
  ⟨⟨((delete_fails_iff (vector_fromsize 4 2) 0).2.2 rfl).1,
      ((delete_fails_iff (vector_fromsize 4 2) 0).2.2 rfl).2.1⟩,
    (delete_fails_iff ⟨[7, 9, 3, 4], 2, 2, 2⟩ 2).1.2 (by decide)⟩

/-- C13. `replace_range_copy` and `replace_range_move` fail with
`ReplaceMoreThanCurrentSizeError` if and only if `count > size`, whatever the value of `at`;
when `count <= size` they succeed and leave the size, the capacity and the element size
unchanged. -/
theorem replace_range_contract (v : Vector) (objs : List Nat) (nobj at_ : Nat) :
    (replace_range_copy v objs nobj at_ =
        Except.error ArrayUtilsErrors.ReplaceMoreThanCurrentSizeError ↔ nobj > v.size) ∧
    (replace_range_move v objs nobj at_ =
        Except.error ArrayUtilsErrors.ReplaceMoreThanCurrentSizeError ↔ nobj > v.size) ∧
    (nobj ≤ v.size → ∃ v2 v3, replace_range_copy v objs nobj at_ = Except.ok v2 ∧
      replace_range_move v objs nobj at_ = Except.ok v3 ∧
      v2.size = v.size ∧ v2.capacity = v.capacity ∧ v2.objsize = v.objsize ∧
      v3.size = v.size ∧ v3.capacity = v.capacity ∧ v3.objsize = v.objsize) := by
  refine ⟨?_, ?_, ?_⟩
  · constructor
    · intro h
      by_contra hle
      rw [replace_range_copy_ok v objs nobj at_ (by omega)] at h
      exact Except.noConfusion h
    · exact replace_range_copy_error v objs nobj at_
  · constructor
    · intro h
      by_contra hle
      rw [replace_range_move_ok v objs nobj at_ (by omega)] at h
      exact Except.noConfusion h
    · exact replace_range_move_error v objs nobj at_
  · intro h
    exact ⟨_, _, replace_range_copy_ok v objs nobj at_ h, replace_range_move_ok v objs nobj at_ h,
      rfl, rfl, rfl, rfl, rfl, rfl⟩

theorem replace_range_contract_witness :
    replace_range_copy ⟨[7, 9, 3, 4], 2, 2, 2⟩ [1, 2, 3, 4, 5, 6] 3 0 =
        Except.error ArrayUtilsErrors.ReplaceMoreThanCurrentSizeError ∧
    replace_range_move ⟨[7, 9, 3, 4], 2, 2, 2⟩ [1, 2, 3, 4, 5, 6] 3 0 =
        Except.error ArrayUtilsErrors.ReplaceMoreThanCurrentSizeError ∧
    ∃ v2 v3, replace_range_copy ⟨[7, 9, 3, 4], 2, 2, 2⟩ [1, 2, 3, 4] 2 0 = Except.ok v2 ∧
      replace_range_move ⟨[7, 9, 3, 4], 2, 2, 2⟩ [1, 2, 3, 4] 2 0 = Except.ok v3 ∧
      v2.size = 2 ∧ v2.capacity = 2 ∧ v2.objsize = 2 ∧
      v3.size = 2 ∧ v3.capacity = 2 ∧ v3.objsize = 2 :=
  ⟨(replace_range_contract ⟨[7, 9, 3, 4], 2, 2, 2⟩ [1, 2, 3, 4, 5, 6] 3 0).1.2 (by decide),
    (replace_range_contract ⟨[7, 9, 3, 4], 2, 2, 2⟩ [1, 2, 3, 4, 5, 6] 3 0).2.1.2 (by decide),
    (replace_range_contract ⟨[7, 9, 3, 4], 2, 2, 2⟩ [1, 2, 3, 4] 2 0).2.2 (by decide)⟩

/-- C16. The copy and the move functions give the same result, the same size, capacity and
buffer or the same failure: `add_range_copy` and `add_range_move`, `add_range_copy_at` and
`add_range_move_at`, `replace_range_copy` and `replace_range_move`, for the same arguments.
The supplied elements are a block of their own, so the source does not overlap the buffer. -/
theorem copy_move_same_result (fuel f : Nat) (v : Vector) (objs : List Nat) (nobj at_ : Nat) :
    add_range_copy fuel f v objs nobj = add_range_move fuel f v objs nobj ∧
    add_range_copy_at fuel f v objs nobj at_ = add_range_move_at fuel f v objs nobj at_ ∧
    replace_range_copy v objs nobj at_ = replace_range_move v objs nobj at_ := by
  refine ⟨?_, ?_, ?_⟩
  · unfold add_range_copy add_range_move memcpy memmove
    rfl
  · unfold add_range_copy_at add_range_move_at memcpy memmove
    rfl
  · unfold replace_range_copy replace_range_move memcpy memmove
    rfl

/-- C17, as the code has it. With a handler installed, `pop_noret` on the empty vector made by
`vector_new` (capacity 1, elements of 4 bytes) raises `EmptyPopError` and, the handler having
returned, goes on to `vect->size--`: the size it leaves is `2 ^ 64 - 1`, not 0. -/
theorem pop_noret_delegated_goes_on :
    pop_noret_mode true (vector_new 1 4) =
        Except.ok ([ArrayUtilsErrors.EmptyPopError],
          ⟨[0, 0, 0, 0], 4, 18446744073709551615, 1⟩) ∧
      (vector_new 1 4).size = 0 :=
  ⟨rfl, rfl⟩

/-- C17, amended. With no handler installed (Direct mode) an operation that detects a
contract violation stops there: `pop` and `pop_noret` on an empty vector, `access`,
`copy_access`, `delete`, `delete_noret`, `add_range_copy_at` and `add_range_move_at` with an
index `>= size`, and `replace_range_copy` and `replace_range_move` with `count > size` end in
the exit of the process with the error, and no statement after the check has run. With a
handler installed (Delegated mode) and a handler that returns, `pop` and `pop_noret` on an
empty vector raise `EmptyPopError` and then run the rest of their body: the size they leave
is `2 ^ 64 - 1`. -/
theorem violation_stops_in_direct_mode_only (v : Vector) :
    (v.size = 0 →
      pop v = Except.error ArrayUtilsErrors.EmptyPopError ∧
      pop_noret v = Except.error ArrayUtilsErrors.EmptyPopError ∧
      pop_mode false v = Except.error ArrayUtilsErrors.EmptyPopError ∧
      pop_noret_mode false v = Except.error ArrayUtilsErrors.EmptyPopError) ∧
    (∀ i, i ≥ v.size →
      access v i = Except.error ArrayUtilsErrors.OutOfBoundsAccessError ∧
      copy_access v i = Except.error ArrayUtilsErrors.OutOfBoundsAccessError ∧
      delete v i = Except.error ArrayUtilsErrors.OutOfBoundsAccessError ∧
      delete_noret v i = Except.error ArrayUtilsErrors.OutOfBoundsAccessError ∧
      ∀ fuel f objs nobj,
        add_range_copy_at fuel f v objs nobj i =
          some (Except.error ArrayUtilsErrors.OutOfBoundsAccessError) ∧
        add_range_move_at fuel f v objs nobj i =
          some (Except.error ArrayUtilsErrors.OutOfBoundsAccessError)) ∧
    (∀ objs nobj at_, nobj > v.size →
      replace_range_copy v objs nobj at_ =
        Except.error ArrayUtilsErrors.ReplaceMoreThanCurrentSizeError ∧
      replace_range_move v objs nobj at_ =
        Except.error ArrayUtilsErrors.ReplaceMoreThanCurrentSizeError) ∧
    (v.size = 0 →
      pop_noret_mode true v =
        Except.ok ([ArrayUtilsErrors.EmptyPopError], { v with size := ULONG_RANGE - 1 }) ∧
      ∃ cpy, pop_mode true v =
        Except.ok ([ArrayUtilsErrors.EmptyPopError], cpy,
          { v with size := ULONG_RANGE - 1 })) := by
  refine ⟨?_, ?_, ?_, ?_⟩
  · intro h
    exact ⟨pop_error v h, pop_noret_error v h, (pop_mode_direct_empty v h).1,
      (pop_mode_direct_empty v h).2⟩
  · intro i hi
    refine ⟨access_error v i hi, copy_access_error v i hi, delete_error v i hi,
      delete_noret_error v i hi, ?_⟩
    intro fuel f objs nobj
    refine ⟨?_, add_range_move_at_error fuel f v objs nobj i hi⟩
    rw [add_range_copy_at_eq_move_at]
    exact add_range_move_at_error fuel f v objs nobj i hi
  · intro objs nobj at_ h
    exact ⟨replace_range_copy_error v objs nobj at_ h, replace_range_move_error v objs nobj at_ h⟩
  · intro h
    exact ⟨pop_noret_mode_delegated_empty v h, _, pop_mode_delegated_empty v h⟩

theorem violation_stops_in_direct_mode_only_witness :
    (pop (vector_fromsize 2 3) = Except.error ArrayUtilsErrors.EmptyPopError ∧
      pop_noret (vector_fromsize 2 3) = Except.error ArrayUtilsErrors.EmptyPopError ∧
      pop_mode false (vector_fromsize 2 3) = Except.error ArrayUtilsErrors.EmptyPopError ∧
      pop_noret_mode false (vector_fromsize 2 3) =
        Except.error ArrayUtilsErrors.EmptyPopError) ∧
    (replace_range_copy (vector_fromsize 2 3) [1, 2] 1 0 =
        Except.error ArrayUtilsErrors.ReplaceMoreThanCurrentSizeError ∧
      replace_range_move (vector_fromsize 2 3) [1, 2] 1 0 =
        Except.error ArrayUtilsErrors.ReplaceMoreThanCurrentSizeError) ∧
    (pop_noret_mode true (vector_fromsize 2 3) =
        Except.ok ([ArrayUtilsErrors.EmptyPopError],
          { vector_fromsize 2 3 with size := ULONG_RANGE - 1 }) ∧
      ∃ cpy, pop_mode true (vector_fromsize 2 3) =
        Except.ok ([ArrayUtilsErrors.EmptyPopError], cpy,
          { vector_fromsize 2 3 with size := ULONG_RANGE - 1 })) :=
  ⟨(violation_stops_in_direct_mode_only (vector_fromsize 2 3)).1 rfl,
    (violation_stops_in_direct_mode_only (vector_fromsize 2 3)).2.2.1 [1, 2] 1 0 (by decide),
    (violation_stops_in_direct_mode_only (vector_fromsize 2 3)).2.2.2 rfl⟩

/-- C21. With default capacity 1 and resize factor 2, after the `n` elements of `objs` have
been pushed with `add` on a vector made by `vector_new`, for `n >= 1` as for `n = 0`, the size
is `n` and the capacity is the least power of two that is at least `n`: it is `2 ^ j` with
`n <= 2 ^ j`, and `j <= i` for every `i` with `n <= 2 ^ i`. -/
theorem add_capacity_least_power_of_two (objsize : Nat) (objs : List (List Nat)) :
    (objs.foldl (add 2) (vector_new 1 objsize)).size = objs.length ∧
    ∃ j, (objs.foldl (add 2) (vector_new 1 objsize)).capacity = 2 ^ j ∧
      objs.length ≤ 2 ^ j ∧ ∀ i, objs.length ≤ 2 ^ i → j ≤ i := by
  have hsize : (objs.foldl (add 2) (vector_new 1 objsize)).size = objs.length := by
    rw [foldl_add_size]
    show 0 + objs.length = objs.length
    omega
  obtain ⟨j, g1, g2, g3⟩ := foldl_add_least_power objs (vector_new 1 objsize) 0 rfl
    (Nat.zero_le _) (fun i _ => Nat.zero_le i)
  rw [hsize] at g2 g3
  exact ⟨hsize, j, g1, g2, g3⟩

theorem add_capacity_least_power_of_two_witness :
    (([[1, 0, 0, 0], [2, 0, 0, 0], [3, 0, 0, 0]].foldl (add 2) (vector_new 1 4)).size = 3 ∧
      ∃ j, ([[1, 0, 0, 0], [2, 0, 0, 0], [3, 0, 0, 0]].foldl (add 2) (vector_new 1 4)).capacity
          = 2 ^ j ∧
        3 ≤ 2 ^ j ∧ ∀ i, 3 ≤ 2 ^ i → j ≤ i) ∧
    ([[1, 0, 0, 0], [2, 0, 0, 0], [3, 0, 0, 0]].foldl (add 2) (vector_new 1 4)).capacity = 4 ∧
    elem ([[1, 0, 0, 0], [2, 0, 0, 0], [3, 0, 0, 0]].foldl (add 2) (vector_new 1 4)) 0 =
      [1, 0, 0, 0] ∧
    elem ([[1, 0, 0, 0], [2, 0, 0, 0], [3, 0, 0, 0]].foldl (add 2) (vector_new 1 4)) 2 =
      [3, 0, 0, 0] :=
  ⟨add_capacity_least_power_of_two 4 [[1, 0, 0, 0], [2, 0, 0, 0], [3, 0, 0, 0]],
    rfl, by decide, by decide⟩

/-- C23. There are a vector with `size <= capacity`, a count `nobj <= size` and an index
`at < size` with `at + nobj > capacity` for which `replace_range_copy` and
`replace_range_move` do not fail and store the supplied bytes in the range
`[at * objsize, (at + nobj) * objsize)`, which ends past the `capacity * objsize` bytes of the
buffer. The vector has two elements of two bytes and capacity 2; its block is the memory from
`data` on, four bytes of buffer and the two bytes that follow them. Replacing two elements at
index 1 leaves the bytes before `at * objsize` as they were, puts the four supplied bytes at
offsets 2 to 5, and so changes the two bytes that follow the buffer. -/
theorem replace_range_can_overrun :
    ∃ (v : Vector) (objs : List Nat) (nobj at_ : Nat),
      v.size ≤ v.capacity ∧ nobj ≤ v.size ∧ at_ < v.size ∧ at_ + nobj > v.capacity ∧
      ∃ v2, replace_range_copy v objs nobj at_ = Except.ok v2 ∧
        replace_range_move v objs nobj at_ = Except.ok v2 ∧
        mem_read v2.data 0 (at_ * v.objsize) = mem_read v.data 0 (at_ * v.objsize) ∧
        mem_read v2.data (at_ * v.objsize) (nobj * v.objsize) =
          mem_read objs 0 (nobj * v.objsize) ∧
        (at_ + nobj) * v.objsize > v.capacity * v.objsize ∧
        mem_read v2.data (v.capacity * v.objsize) ((at_ + nobj - v.capacity) * v.objsize) =
          mem_read objs ((v.capacity - at_) * v.objsize)
            ((at_ + nobj - v.capacity) * v.objsize) ∧
        mem_read v2.data (v.capacity * v.objsize) ((at_ + nobj - v.capacity) * v.objsize) ≠
          mem_read v.data (v.capacity * v.objsize) ((at_ + nobj - v.capacity) * v.objsize) :=
  ⟨⟨[7, 9, 3, 4, 5, 6], 2, 2, 2⟩, [11, 12, 13, 14], 2, 1, by decide, by decide, by decide,
    by decide, ⟨[7, 9, 11, 12, 13, 14], 2, 2, 2⟩, rfl, rfl, by decide, by decide, by decide,
    by decide, by decide⟩

/-- C24, at a failing input. On the full vector of the one-byte elements 7, 9 (size 2,
capacity 2), `delete(0)` and `delete_noret(0)` succeed, and their `memmove` reads the 2 bytes
`[1, 3)` of a buffer of 2 bytes: the byte at offset 2 is past the buffer. -/
theorem delete_reads_past_buffer :
    (∃ cpy v2, delete ⟨[7, 9], 1, 2, 2⟩ 0 = Except.ok (cpy, v2)) ∧
    (∃ v2, delete_noret ⟨[7, 9], 1, 2, 2⟩ 0 = Except.ok v2) ∧
    delete_reads ⟨[7, 9], 1, 2, 2⟩ 0 = [{ lo := 0, hi := 1 }, { lo := 1, hi := 3 }] ∧
    delete_noret_reads ⟨[7, 9], 1, 2, 2⟩ 0 = [{ lo := 1, hi := 3 }] ∧
    ¬ in_buffer ⟨[7, 9], 1, 2, 2⟩ { lo := 1, hi := 3 } ∧
    (⟨[7, 9], 1, 2, 2⟩ : Vector).capacity * (⟨[7, 9], 1, 2, 2⟩ : Vector).objsize = 2 :=
  ⟨⟨_, _, rfl⟩, ⟨_, rfl⟩, rfl, rfl, by decide, rfl⟩

/-- C25. For every vector with `capacity >= 1`, every resize factor `f >= 2` and every count
`nobj`, sizes being natural numbers: the loop `while (size + nobj >= capacity)` of the four
`add_range` functions ends within `size + nobj + 1` tests of its condition and the loop
`while (capacity < nobj)` of `fill` within `nobj + 1` tests, each after a number `k` of
multiplications of the capacity, with its condition false; and `add_range_copy`,
`add_range_move`, `add_range_copy_at`, `add_range_move_at` and `fill` return. -/
theorem growth_loops_terminate (f : Nat) (v : Vector) (nobj : Nat) (hf : 2 ≤ f)
    (hcap : 1 ≤ v.capacity) :
    (∀ fuel, v.size + nobj < fuel →
      ∃ k v2, add_range_grow f nobj fuel v = some v2 ∧ v2.capacity = v.capacity * f ^ k ∧
        ¬ (v2.size + nobj ≥ v2.capacity)) ∧
    (∀ fuel, nobj < fuel →
      ∃ k v2, fill_grow f nobj fuel v = some v2 ∧ v2.capacity = v.capacity * f ^ k ∧
        ¬ (v2.capacity < nobj)) ∧
    (∀ fuel objs at_, v.size + nobj < fuel →
      (add_range_copy fuel f v objs nobj).isSome = true ∧
      (add_range_move fuel f v objs nobj).isSome = true ∧
      (add_range_copy_at fuel f v objs nobj at_).isSome = true ∧
      (add_range_move_at fuel f v objs nobj at_).isSome = true) ∧
    (∀ fuel val, nobj < fuel → (fill fuel f v val nobj).isSome = true) := by
  refine ⟨?_, ?_, ?_, ?_⟩
  · intro fuel hfuel
    obtain ⟨fuel2, rfl⟩ : ∃ n, fuel = n + 1 := ⟨fuel - 1, by omega⟩
    obtain ⟨k, v2, g1, g2, g3, g4, _⟩ :=
      add_range_grow_least f nobj hf fuel2 v hcap (by omega)
    exact ⟨k, v2, g1, g3, by rw [g2, g3]; omega⟩
  · intro fuel hfuel
    obtain ⟨fuel2, rfl⟩ : ∃ n, fuel = n + 1 := ⟨fuel - 1, by omega⟩
    obtain ⟨k, v2, g1, g3, g4, _⟩ := fill_grow_least f nobj hf fuel2 v hcap (by omega)
    exact ⟨k, v2, g1, g3, by rw [g3]; omega⟩
  · intro fuel objs at_ hfuel
    obtain ⟨fuel2, rfl⟩ : ∃ n, fuel = n + 1 := ⟨fuel - 1, by omega⟩
    obtain ⟨k, v1, g1, _, _, _, _⟩ :=
      add_range_grow_least f nobj hf fuel2 v hcap (by omega)
    have hmove := add_range_move_eq (fuel2 + 1) f v v1 objs nobj g1
    have hat : (add_range_move_at (fuel2 + 1) f v objs nobj at_).isSome = true := by
      by_cases h : at_ < v.size
      · rw [add_range_move_at_eq (fuel2 + 1) f v v1 objs nobj at_ h g1]
        rfl
      · rw [add_range_move_at_error (fuel2 + 1) f v objs nobj at_ (by omega)]
        rfl
    refine ⟨?_, by rw [hmove]; rfl, ?_, hat⟩
    · rw [add_range_copy_eq_move, hmove]
      rfl
    · rw [add_range_copy_at_eq_move_at]
      exact hat
  · intro fuel val hfuel
    obtain ⟨fuel2, rfl⟩ : ∃ n, fuel = n + 1 := ⟨fuel - 1, by omega⟩
    obtain ⟨k, v1, g1, _, _, _⟩ := fill_grow_least f nobj hf fuel2 v hcap (by omega)
    rw [fill_eq (fuel2 + 1) f v v1 val nobj g1]
    rfl

theorem growth_loops_terminate_witness :
    (∃ k v2, add_range_grow 3 5 9 ⟨[7, 9, 3, 4], 2, 2, 2⟩ = some v2 ∧ v2.capacity = 2 * 3 ^ k ∧
      ¬ (v2.size + 5 ≥ v2.capacity)) ∧
    (∃ k v2, fill_grow 3 5 9 ⟨[7, 9, 3, 4], 2, 2, 2⟩ = some v2 ∧ v2.capacity = 2 * 3 ^ k ∧
      ¬ (v2.capacity < 5)) ∧
    ((add_range_copy 9 3 ⟨[7, 9, 3, 4], 2, 2, 2⟩ [] 5).isSome = true ∧
      (add_range_move 9 3 ⟨[7, 9, 3, 4], 2, 2, 2⟩ [] 5).isSome = true ∧
      (add_range_copy_at 9 3 ⟨[7, 9, 3, 4], 2, 2, 2⟩ [] 5 1).isSome = true ∧
      (add_range_move_at 9 3 ⟨[7, 9, 3, 4], 2, 2, 2⟩ [] 5 1).isSome = true) ∧
    (fill 9 3 ⟨[7, 9, 3, 4], 2, 2, 2⟩ [1, 2] 5).isSome = true :=
  ⟨(growth_loops_terminate 3 ⟨[7, 9, 3, 4], 2, 2, 2⟩ 5 (by decide) (by decide)).1 9 (by decide),
    (growth_loops_terminate 3 ⟨[7, 9, 3, 4], 2, 2, 2⟩ 5 (by decide) (by decide)).2.1 9
      (by decide),
    (growth_loops_terminate 3 ⟨[7, 9, 3, 4], 2, 2, 2⟩ 5 (by decide) (by decide)).2.2.1 9 [] 1
      (by decide),
    (growth_loops_terminate 3 ⟨[7, 9, 3, 4], 2, 2, 2⟩ 5 (by decide) (by decide)).2.2.2 9 [1, 2]
      (by decide)⟩

end ArrayUtils
